import Mathlib

/-!
Verification of the Havok collision-geometry extractor
(`tank_viewer/havok/model_extractor.py`).

The embedding translates the numpy-based extractor into pure Lean
functions: float32 arithmetic is modelled over `ℚ`, the numpy integer
arrays become `List ℕ` (all integer fields of the tag format are
nonnegative), and Python exceptions (KeyError, TypeError/ValueError,
IndexError, AssertionError) become an explicit `Except` error type.
-/

namespace WoTHavok

/-- Three float32 components, modelled over `ℚ`. -/
structure Vec3 where
  x : ℚ
  y : ℚ
  z : ℚ
deriving DecidableEq, Repr

/-- Componentwise order on `Vec3`. -/
def Vec3.allLE (a b : Vec3) : Prop :=
  a.x ≤ b.x ∧ a.y ≤ b.y ∧ a.z ≤ b.z

instance (a b : Vec3) : Decidable (a.allLE b) := by
  unfold Vec3.allLE; infer_instance

/-- Scalar clamp, as performed componentwise by `np.clip`. -/
def clampQ (lo hi v : ℚ) : ℚ := min hi (max lo v)

/-- Componentwise `np.clip(res, sec_domain_min, sec_domain_max)`. -/
def clampVec (lo hi v : Vec3) : Vec3 :=
  ⟨clampQ lo.x hi.x v.x, clampQ lo.y hi.y v.y, clampQ lo.z hi.z v.z⟩

/-- Per-section affine dequantization parameters (`CodecParams`). -/
structure CodecParams where
  min_xyz : Vec3
  scale_xyz : Vec3
deriving DecidableEq, Repr

/-- One row of `unpack_packed_vertices`: extract the 11/11/10-bit fields of a
packed 32-bit value, apply `res *= scale; res += min`, then clamp into the
section domain. -/
def unpackPackedVertex (p : ℕ) (codec : CodecParams) (domMin domMax : Vec3) : Vec3 :=
  let xr : ℚ := (p &&& 0x7FF : ℕ)
  let yr : ℚ := ((p >>> 11) &&& 0x7FF : ℕ)
  let zr : ℚ := ((p >>> 22) &&& 0x3FF : ℕ)
  clampVec domMin domMax
    ⟨xr * codec.scale_xyz.x + codec.min_xyz.x,
     yr * codec.scale_xyz.y + codec.min_xyz.y,
     zr * codec.scale_xyz.z + codec.min_xyz.z⟩

/-- The `unpack_packed_vertices` function over a whole array. -/
def unpack_packed_vertices (packed : List ℕ) (codec : CodecParams)
    (domMin domMax : Vec3) : List Vec3 :=
  packed.map (fun p => unpackPackedVertex p codec domMin domMax)

/-- Low 21-bit field of a shared 64-bit value, normalized: `(s & 0x1FFFFF) / 0x1FFFFF`. -/
def sharedFracX (s : ℕ) : ℚ := ((s &&& 0x1FFFFF : ℕ) : ℚ) / 0x1FFFFF

/-- Middle 21-bit field, normalized: `(s >> 21 & 0x1FFFFF) / 0x1FFFFF`. -/
def sharedFracY (s : ℕ) : ℚ := (((s >>> 21) &&& 0x1FFFFF : ℕ) : ℚ) / 0x1FFFFF

/-- High 22-bit field, normalized: `(s >> 42 & 0x3FFFFF) / 0x3FFFFF`. -/
def sharedFracZ (s : ℕ) : ℚ := (((s >>> 42) &&& 0x3FFFFF : ℕ) : ℚ) / 0x3FFFFF

/-- One row of `unpack_shared_vertices`: normalized fractions mapped through
`res *= (domain_max - domain_min); res += domain_min`, with no clamp. -/
def unpackSharedVertex (s : ℕ) (domMin domMax : Vec3) : Vec3 :=
  ⟨sharedFracX s * (domMax.x - domMin.x) + domMin.x,
   sharedFracY s * (domMax.y - domMin.y) + domMin.y,
   sharedFracZ s * (domMax.z - domMin.z) + domMin.z⟩

/-- The `unpack_shared_vertices` function over a whole array. -/
def unpack_shared_vertices (shared : List ℕ) (domMin domMax : Vec3) : List Vec3 :=
  shared.map (fun s => unpackSharedVertex s domMin domMax)

/-- A quad primitive: one row of the `(N, 4)` `primitives` array. -/
structure Quad where
  a : ℕ
  b : ℕ
  c : ℕ
  d : ℕ
deriving DecidableEq, Repr

/-- A triangle: one row of the `(M, 3)` output of `tris`. -/
structure Tri where
  a : ℕ
  b : ℕ
  c : ℕ
deriving DecidableEq, Repr

/-- The `dupes` test of `HavokGeometry.tris`: some two of the three indices equal. -/
def triDegenerate (t : Tri) : Bool :=
  t.a == t.b || t.b == t.c || t.a == t.c

/-- The `tris` property: build all fan candidates
`primitives[:, [0, 1, 2, 0, 2, 3]].reshape(-1, 3)` and drop the degenerate rows. -/
def trisOfPrimitives (prims : List Quad) : List Tri :=
  (prims.flatMap (fun q => [⟨q.a, q.b, q.c⟩, ⟨q.a, q.c, q.d⟩])).filter
    (fun t => !triDegenerate t)

/-- Follows the spec's words (§4.4): for each quad emit the two candidate
triangles in order and drop, within the quad, the degenerate ones. -/
def trisSpec (prims : List Quad) : List Tri :=
  prims.flatMap (fun q =>
    ([⟨q.a, q.b, q.c⟩, ⟨q.a, q.c, q.d⟩] : List Tri).filter (fun t => !triDegenerate t))

/-- Modelled from the spec: the file-type tag returned by the external
`TagReader.checkIO`; only the `Object` kind is accepted by the extractor. -/
inductive TagFileType where
  | Object
  | Compendium
deriving DecidableEq, Repr

/-- Modelled from the spec: one node of the generic tag object tree produced
by the external `tag_tools` deserializer.  A node is a mapping from
byte-string keys to nodes, an ordered sequence of nodes, or a scalar
(integer, float, or string).  Keys are modelled as `String`, float scalars
as `ℚ`, integer scalars as `ℕ` (all integer fields of the format are
nonnegative counts, offsets, or packed bit patterns).  The `.value`
indirection of the Python `TagObject` wrapper is collapsed: a node directly
is its payload. -/
inductive TagObject where
  | int (n : ℕ)
  | float (q : ℚ)
  | str (s : String)
  | seq (items : List TagObject)
  | map (entries : List (String × TagObject))

/-- Errors of the extraction pipeline, mirroring the Python exceptions:
`keyError k` is a `KeyError` on a missing mapping key `k`; `typeError`
stands for the `TypeError`/`ValueError` raised when a node or array has the
wrong shape; `indexError` is numpy's out-of-bounds fancy-indexing error;
`assertionError` is a failed `assert`. -/
inductive ExtractErr where
  | keyError (key : String)
  | typeError
  | indexError
  | assertionError
deriving DecidableEq, Repr

/-- Python `d[k]` on a tag mapping already extracted as an entry list. -/
def lookupKey (entries : List (String × TagObject)) (k : String) :
    Except ExtractErr TagObject :=
  match entries.lookup k with
  | some v => .ok v
  | none => .error (.keyError k)

/-- Python `node.value[k]`: subscripting a node that must be a mapping. -/
def TagObject.getKey : TagObject → String → Except ExtractErr TagObject
  | .map entries, k => lookupKey entries k
  | _, _ => .error .typeError

/-- Reads a node that must be an ordered sequence. -/
def TagObject.asSeq : TagObject → Except ExtractErr (List TagObject)
  | .seq items => .ok items
  | _ => .error .typeError

/-- Reads a node that must be a mapping. -/
def TagObject.asMap : TagObject → Except ExtractErr (List (String × TagObject))
  | .map entries => .ok entries
  | _ => .error .typeError

/-- Reads a scalar used as an integer count, offset, or packed value. -/
def TagObject.asNat : TagObject → Except ExtractErr ℕ
  | .int n => .ok n
  | _ => .error .typeError

/-- Reads a numeric scalar destined for a float32 array. -/
def TagObject.asRat : TagObject → Except ExtractErr ℚ
  | .int n => .ok (n : ℚ)
  | .float q => .ok q
  | _ => .error .typeError

/-- Reads a scalar used as a geometry name. -/
def TagObject.asStr : TagObject → Except ExtractErr String
  | .str s => .ok s
  | _ => .error .typeError

/-- Builds a float32 triple from `[x.value for x in node.value[:3]]`; the
later numpy broadcasting needs exactly three numeric components. -/
def readVec3 (node : TagObject) : Except ExtractErr Vec3 := do
  let items ← node.asSeq
  match items.take 3 with
  | [na, nb, nc] => do
      let va ← na.asRat
      let vb ← nb.asRat
      let vc ← nc.asRat
      pure ⟨va, vb, vc⟩
  | _ => .error .typeError

/-- The per-section description decoded by `HavokSection.__init__`. -/
structure HavokSection where
  domain_min : Vec3
  domain_max : Vec3
  codec_params : CodecParams
  firstPackedVertexIndex : ℕ
  firstSharedVertexIndex : ℕ
  firstPrimitiveIndex : ℕ
  numPackedVertices : ℕ
  numPrimitives : ℕ
  firstDataRunIndex : ℕ
  numDataRuns : ℕ
deriving DecidableEq, Repr

/-- `HavokSection.__init__`, field by field in source order: `domain.min`,
`domain.max`, `codecParms` (six floats: first three `min_xyz`, next three
`scale_xyz`), then the six integer fields. -/
def HavokSection.ofTag (sectionEntries : List (String × TagObject)) :
    Except ExtractErr HavokSection := do
  let dom ← lookupKey sectionEntries "domain"
  let dmin ← readVec3 (← dom.getKey "min")
  let dmax ← readVec3 (← dom.getKey "max")
  let cpNode ← lookupKey sectionEntries "codecParms"
  let cpItems ← cpNode.asSeq
  let cpVals ← (cpItems.take 6).mapM TagObject.asRat
  match cpVals with
  | [m1, m2, m3, s1, s2, s3] => do
      let fpv ← (← lookupKey sectionEntries "firstPackedVertexIndex").asNat
      let fsv ← (← lookupKey sectionEntries "firstSharedVertexIndex").asNat
      let fpi ← (← lookupKey sectionEntries "firstPrimitiveIndex").asNat
      let npv ← (← lookupKey sectionEntries "numPackedVertices").asNat
      let npr ← (← lookupKey sectionEntries "numPrimitives").asNat
      let fdr ← (← lookupKey sectionEntries "firstDataRunIndex").asNat
      let ndr ← (← lookupKey sectionEntries "numDataRuns").asNat
      pure
        { domain_min := dmin
          domain_max := dmax
          codec_params := ⟨⟨m1, m2, m3⟩, ⟨s1, s2, s3⟩⟩
          firstPackedVertexIndex := fpv
          firstSharedVertexIndex := fsv
          firstPrimitiveIndex := fpi
          numPackedVertices := npv
          numPrimitives := npr
          firstDataRunIndex := fdr
          numDataRuns := ndr }
  | _ => .error .typeError

/-- One corner of the index-resolution rewrite: a raw index below the
section's `numPackedVertices` is offset by `firstPackedVertexIndex`
(`prim_slice[~mask] += ...`); otherwise it is looked up in
`sharedVerticesIndex` — numpy raises `IndexError` when the offset is out of
bounds — and rebased past the packed block
(`prim_slice[mask] = packedVertices.size + sharedVerticesIndex[...]`). -/
def resolveIndex (numPackedTotal : ℕ) (svi : List ℕ) (sec : HavokSection) (v : ℕ) :
    Except ExtractErr ℕ :=
  if v < sec.numPackedVertices then
    .ok (v + sec.firstPackedVertexIndex)
  else
    match svi[sec.firstSharedVertexIndex + (v - sec.numPackedVertices)]? with
    | some w => .ok (numPackedTotal + w)
    | none => .error .indexError

/-- Resolves all four corners of one quad. -/
def resolveQuad (numPackedTotal : ℕ) (svi : List ℕ) (sec : HavokSection) (q : Quad) :
    Except ExtractErr Quad := do
  let qa ← resolveIndex numPackedTotal svi sec q.a
  let qb ← resolveIndex numPackedTotal svi sec q.b
  let qc ← resolveIndex numPackedTotal svi sec q.c
  let qd ← resolveIndex numPackedTotal svi sec q.d
  pure ⟨qa, qb, qc, qd⟩

/-- In-place rewrite of the quads whose position (counted from `pos`) lies in
the section's primitive slice; quads outside the slice are untouched. -/
def rewriteFrom (numPackedTotal : ℕ) (svi : List ℕ) (sec : HavokSection) :
    ℕ → List Quad → Except ExtractErr (List Quad)
  | _, [] => .ok []
  | pos, q :: rest => do
      let q2 ←
        if sec.firstPrimitiveIndex ≤ pos ∧ pos < sec.firstPrimitiveIndex + sec.numPrimitives
          then resolveQuad numPackedTotal svi sec q
          else pure q
      let rest2 ← rewriteFrom numPackedTotal svi sec (pos + 1) rest
      pure (q2 :: rest2)

/-- The per-section primitive rewrite applied to the whole quad array:
the rewrite of `primitives[firstPrimitiveIndex : firstPrimitiveIndex + numPrimitives]`. -/
def rewriteSection (numPackedTotal : ℕ) (svi : List ℕ) (sec : HavokSection)
    (prims : List Quad) : Except ExtractErr (List Quad) :=
  rewriteFrom numPackedTotal svi sec 0 prims

/-- Numpy slice assignment `l[first : first + num] = xs`: the length-clipped
target slice must match the source length (else `ValueError`), and on
success the slice is replaced in place. -/
def setSlice (l : List Vec3) (first num : ℕ) (xs : List Vec3) :
    Except ExtractErr (List Vec3) :=
  if min (first + num) l.length - min first l.length = xs.length then
    .ok (l.take first ++ xs ++ l.drop (first + xs.length))
  else .error .typeError

/-- One iteration of the section loop in `HavokGeometry.__init__`: when the
section owns packed vertices, decode its slice of `packedVertices` into the
matching slice of `verts`; then rewrite its primitive slice. -/
def applySection (packedVs : List ℕ) (svi : List ℕ)
    (st : List Vec3 × List Quad) (sec : HavokSection) :
    Except ExtractErr (List Vec3 × List Quad) := do
  let verts2 ←
    if 0 < sec.numPackedVertices then
      let packedSlice :=
        (packedVs.drop sec.firstPackedVertexIndex).take sec.numPackedVertices
      setSlice st.1 sec.firstPackedVertexIndex sec.numPackedVertices
        (unpack_packed_vertices packedSlice sec.codec_params sec.domain_min sec.domain_max)
    else pure st.1
  let prims2 ← rewriteSection packedVs.length svi sec st.2
  pure (verts2, prims2)

/-- One reconstructed collision mesh (`HavokGeometry`). -/
structure HavokGeometry where
  name : String
  domain_min : Vec3
  domain_max : Vec3
  primitives : List Quad
  sharedVertices : List ℕ
  sharedVerticesIndex : List ℕ
  packedVertices : List ℕ
  sections : List HavokSection
  verts : List Vec3
deriving DecidableEq, Repr

/-- Placeholder for the unspecified contents of `np.empty`; the construction
overwrites the cells it guarantees anything about. -/
def vDefault : Vec3 := ⟨0, 0, 0⟩

/-- The tail of `HavokGeometry.__init__` after field parsing: allocate
`verts`, fill its tail with the decoded shared vertices, and run the section
loop on `(verts, primitives)`. -/
def buildGeometry (name : String) (dmin dmax : Vec3) (prims0 : List Quad)
    (svi : List ℕ) (sections : List HavokSection)
    (shared packedVs : List ℕ) : Except ExtractErr HavokGeometry := do
  let verts0 :=
    List.replicate packedVs.length vDefault ++ unpack_shared_vertices shared dmin dmax
  let st ← sections.foldlM (applySection packedVs svi) (verts0, prims0)
  pure
    { name := name
      domain_min := dmin
      domain_max := dmax
      primitives := st.2
      sharedVertices := shared
      sharedVerticesIndex := svi
      packedVertices := packedVs
      sections := sections
      verts := st.1 }

/-- One row of the `primitives` array: the `indices` sequence of a primitive
node; `np.stack` needs uniform length-4 integer rows. -/
def readQuad (node : TagObject) : Except ExtractErr Quad := do
  let idx ← (← node.getKey "indices").asSeq
  let vals ← idx.mapM TagObject.asNat
  match vals with
  | [qa, qb, qc, qd] => pure ⟨qa, qb, qc, qd⟩
  | _ => .error .typeError

/-- Reads a sequence node of integer scalars (`sharedVerticesIndex`,
`sharedVertices`, `packedVertices`). -/
def readNatArray (node : TagObject) : Except ExtractErr (List ℕ) := do
  let items ← node.asSeq
  items.mapM TagObject.asNat

/-- `HavokGeometry.__init__` in source order: `domain.min`, `domain.max`,
`primitives` (`np.stack` requires at least one row), `sharedVerticesIndex`,
`sections`, `sharedVertices`, `packedVertices`, then `buildGeometry`. -/
def HavokGeometry.ofTag (name : String) (meshTree : List (String × TagObject)) :
    Except ExtractErr HavokGeometry := do
  let dom ← lookupKey meshTree "domain"
  let dmin ← readVec3 (← dom.getKey "min")
  let dmax ← readVec3 (← dom.getKey "max")
  let primNodes ← (← lookupKey meshTree "primitives").asSeq
  let prims0 ← primNodes.mapM readQuad
  match prims0 with
  | [] => .error .typeError
  | _ => do
      let svi ← readNatArray (← lookupKey meshTree "sharedVerticesIndex")
      let secNodes ← (← lookupKey meshTree "sections").asSeq
      let sections ← secNodes.mapM (fun s => do HavokSection.ofTag (← s.asMap))
      let shared ← readNatArray (← lookupKey meshTree "sharedVertices")
      let packedVs ← readNatArray (← lookupKey meshTree "packedVertices")
      buildGeometry name dmin dmax prims0 svi sections shared packedVs

/-- The `tris` property of a constructed geometry. -/
def HavokGeometry.tris (g : HavokGeometry) : List Tri :=
  trisOfPrimitives g.primitives

/-- The name filter `val.value.value[b'name'].value != 'Collision Physics Data'`:
only a string scalar equal to the literal passes. -/
def isCollisionName (node : TagObject) : Bool :=
  match node with
  | .str s => s == "Collision Physics Data"
  | _ => false

/-- One `bodyCinfos` element of the extractor loop: if `shape.data` is
present, construct a geometry from the body's `name` and
`shape.data.meshTree`; otherwise the body is skipped. -/
def processBody (body : TagObject) : Except ExtractErr (Option HavokGeometry) := do
  let bm ← body.asMap
  let shape ← (← lookupKey bm "shape").asMap
  if (shape.lookup "data").isSome then do
    let name ← (← lookupKey bm "name").asStr
    let dataM ← (← lookupKey shape "data").asMap
    let meshTree ← (← lookupKey dataM "meshTree").asMap
    let g ← HavokGeometry.ofTag name meshTree
    pure (some g)
  else pure none

/-- One `resourceHandles` element of the extractor loop: entries whose `name`
is not the literal "Collision Physics Data" are skipped, as are matching
entries without a `bodyCinfos` key. -/
def processEntry (val : TagObject) : Except ExtractErr (List HavokGeometry) := do
  let m ← val.asMap
  let nameNode ← lookupKey m "name"
  if isCollisionName nameNode then do
    let subVal ← (← lookupKey m "variant").asMap
    match subVal.lookup "bodyCinfos" with
    | some bc => do
        let bodies ← bc.asSeq
        let gs ← bodies.mapM processBody
        pure (gs.filterMap id)
    | none => pure []
  else pure []

/-- The entry loop of `read_geoms_from_havok` over the `resourceHandles`
sequence, collecting the constructed geometries in order. -/
def extractGeoms (vals : List TagObject) : Except ExtractErr (List HavokGeometry) := do
  let gss ← vals.mapM processEntry
  pure gss.flatten

/-- The `namedVariants` lookup of `read_geoms_from_havok`:
`root_tag.value[b'namedVariants'].value`. -/
def rootVariants (root : TagObject) : Except ExtractErr (List TagObject) := do
  (← root.getKey "namedVariants").asSeq

/-- The pipeline after the asserts: descend
`[0].value[b'variant'].value.value[b'resourceHandles'].value` and run the
entry loop. -/
def extractFromVariant (v0 : TagObject) : Except ExtractErr (List HavokGeometry) := do
  let vals ← (← (← v0.getKey "variant").getKey "resourceHandles").asSeq
  extractGeoms vals

/-- `read_geoms_from_havok`: assert the stream is an Object tag file, assert
the root has exactly one named variant, then extract.  The file-type result
of the external `TagReader.checkIO` and the parsed root tag stand in for the
byte stream. -/
def read_geoms_from_havok (ft : TagFileType) (root : TagObject) :
    Except ExtractErr (List HavokGeometry) := do
  if ft ≠ TagFileType.Object then .error .assertionError
  else do
    let nv ← rootVariants root
    match nv with
    | [v0] => extractFromVariant v0
    | _ => .error .assertionError

/-- Follows the spec's words (§4.5), selection only: the `(name, meshTree)`
of one body, `none` when the body has no shape data. -/
def selectBody (body : TagObject) :
    Except ExtractErr (Option (String × List (String × TagObject))) := do
  let bm ← body.asMap
  let shape ← (← lookupKey bm "shape").asMap
  if (shape.lookup "data").isSome then do
    let name ← (← lookupKey bm "name").asStr
    let dataM ← (← lookupKey shape "data").asMap
    let meshTree ← (← lookupKey dataM "meshTree").asMap
    pure (some (name, meshTree))
  else pure none

/-- Follows the spec's words (§4.5): the bodies selected from one resource
entry — none when the entry is not named "Collision Physics Data" or has no
`bodyCinfos`. -/
def selectEntry (val : TagObject) :
    Except ExtractErr (List (String × List (String × TagObject))) := do
  let m ← val.asMap
  let nameNode ← lookupKey m "name"
  if isCollisionName nameNode then do
    let subVal ← (← lookupKey m "variant").asMap
    match subVal.lookup "bodyCinfos" with
    | some bc => do
        let bodies ← bc.asSeq
        let obs ← bodies.mapM selectBody
        pure (obs.filterMap id)
    | none => pure []
  else pure []

/-- Follows the spec's words (§4.5): all bodies selected for extraction, in
traversal order. -/
def selectedBodies (root : TagObject) :
    Except ExtractErr (List (String × List (String × TagObject))) := do
  let nv ← rootVariants root
  match nv with
  | [v0] => do
      let vals ← (← (← v0.getKey "variant").getKey "resourceHandles").asSeq
      let bss ← vals.mapM selectEntry
      pure bss.flatten
  | _ => .error .assertionError

/-- Construction step used to compare the source extractor with the
spec-side selection: build one geometry from a selected body. -/
def constructBody (b : String × List (String × TagObject)) :
    Except ExtractErr HavokGeometry :=
  HavokGeometry.ofTag b.1 b.2

theorem clampQ_bounds (lo hi v : ℚ) (h : lo ≤ hi) :
    lo ≤ clampQ lo hi v ∧ clampQ lo hi v ≤ hi := by
  unfold clampQ
  constructor
  · exact le_min h (le_max_left lo v)
  · exact min_le_left hi _

theorem clampVec_bounds (lo hi v : Vec3) (h : lo.allLE hi) :
    lo.allLE (clampVec lo hi v) ∧ (clampVec lo hi v).allLE hi := by
  obtain ⟨hx, hy, hz⟩ := h
  obtain ⟨hx1, hx2⟩ := clampQ_bounds lo.x hi.x v.x hx
  obtain ⟨hy1, hy2⟩ := clampQ_bounds lo.y hi.y v.y hy
  obtain ⟨hz1, hz2⟩ := clampQ_bounds lo.z hi.z v.z hz
  exact ⟨⟨hx1, hy1, hz1⟩, ⟨hx2, hy2, hz2⟩⟩

/-- C2: `unpack_packed_vertices` extracts the 11/11/10-bit fields, applies the
affine codec per axis, and clamps each component into the section domain, so
with `domain_min ≤ domain_max` no output coordinate leaves the domain; packed
value `0` with a unit codec decodes to the origin, and the maximal x-field
`0x7FF` yields raw x `2047` before scale and offset. -/
theorem C2_packed_decode_clamped :
    (∀ (packed : List ℕ) (codec : CodecParams) (dmin dmax : Vec3),
        dmin.allLE dmax →
        ∀ v ∈ unpack_packed_vertices packed codec dmin dmax,
          dmin.allLE v ∧ v.allLE dmax)
    ∧ (∀ (p : ℕ) (codec : CodecParams) (dmin dmax : Vec3),
        unpackPackedVertex p codec dmin dmax =
          clampVec dmin dmax
            ⟨((p &&& 0x7FF : ℕ) : ℚ) * codec.scale_xyz.x + codec.min_xyz.x,
             (((p >>> 11) &&& 0x7FF : ℕ) : ℚ) * codec.scale_xyz.y + codec.min_xyz.y,
             (((p >>> 22) &&& 0x3FF : ℕ) : ℚ) * codec.scale_xyz.z + codec.min_xyz.z⟩)
    ∧ unpack_packed_vertices [0] ⟨⟨0, 0, 0⟩, ⟨1, 1, 1⟩⟩ ⟨0, 0, 0⟩
        ⟨4000, 4000, 4000⟩ = [⟨0, 0, 0⟩]
    ∧ unpack_packed_vertices [0x7FF] ⟨⟨0, 0, 0⟩, ⟨1, 1, 1⟩⟩ ⟨0, 0, 0⟩
        ⟨4000, 4000, 4000⟩ = [⟨2047, 0, 0⟩] := by
  refine ⟨?_, fun p codec dmin dmax => rfl, ?_, ?_⟩
  · intro packed codec dmin dmax h v hv
    obtain ⟨p, _, rfl⟩ := List.mem_map.mp hv
    exact clampVec_bounds dmin dmax _ h
  · norm_num [unpack_packed_vertices, unpackPackedVertex, clampVec, clampQ,
      Nat.shiftRight_eq_div_pow]
  · norm_num [unpack_packed_vertices, unpackPackedVertex, clampVec, clampQ,
      Nat.shiftRight_eq_div_pow]

/-- C2 witness: decoding the overshooting packed value `0x7FF` with a unit
codec and domain `[0, 1]` stays inside the domain (the clamp applies). -/
theorem C2_packed_decode_clamped_witness :
    Vec3.allLE ⟨0, 0, 0⟩ (unpackPackedVertex 0x7FF ⟨⟨0, 0, 0⟩, ⟨1, 1, 1⟩⟩ ⟨0, 0, 0⟩ ⟨1, 1, 1⟩)
    ∧ Vec3.allLE (unpackPackedVertex 0x7FF ⟨⟨0, 0, 0⟩, ⟨1, 1, 1⟩⟩ ⟨0, 0, 0⟩ ⟨1, 1, 1⟩)
        ⟨1, 1, 1⟩ :=
  C2_packed_decode_clamped.1 [0x7FF] ⟨⟨0, 0, 0⟩, ⟨1, 1, 1⟩⟩ ⟨0, 0, 0⟩ ⟨1, 1, 1⟩
    (by decide) _ (List.mem_map.mpr ⟨0x7FF, List.mem_singleton.mpr rfl, rfl⟩)

theorem sharedFracX_bounds (s : ℕ) : 0 ≤ sharedFracX s ∧ sharedFracX s ≤ 1 := by
  unfold sharedFracX
  constructor
  · positivity
  · rw [div_le_one (by norm_num)]
    exact_mod_cast Nat.and_le_right

theorem sharedFracY_bounds (s : ℕ) : 0 ≤ sharedFracY s ∧ sharedFracY s ≤ 1 := by
  unfold sharedFracY
  constructor
  · positivity
  · rw [div_le_one (by norm_num)]
    exact_mod_cast Nat.and_le_right

theorem sharedFracZ_bounds (s : ℕ) : 0 ≤ sharedFracZ s ∧ sharedFracZ s ≤ 1 := by
  unfold sharedFracZ
  constructor
  · positivity
  · rw [div_le_one (by norm_num)]
    exact_mod_cast Nat.and_le_right

theorem sharedFrac_bounds (s : ℕ) :
    (0 ≤ sharedFracX s ∧ sharedFracX s ≤ 1)
    ∧ (0 ≤ sharedFracY s ∧ sharedFracY s ≤ 1)
    ∧ (0 ≤ sharedFracZ s ∧ sharedFracZ s ≤ 1) :=
  ⟨sharedFracX_bounds s, sharedFracY_bounds s, sharedFracZ_bounds s⟩

theorem fracMap_bounds (f lo hi : ℚ) (h0 : 0 ≤ f) (h1 : f ≤ 1) (hlh : lo ≤ hi) :
    lo ≤ f * (hi - lo) + lo ∧ f * (hi - lo) + lo ≤ hi := by
  have hd : (0 : ℚ) ≤ hi - lo := sub_nonneg.mpr hlh
  have h2 : f * (hi - lo) ≤ 1 * (hi - lo) := mul_le_mul_of_nonneg_right h1 hd
  have h3 : 0 ≤ f * (hi - lo) := mul_nonneg h0 hd
  constructor <;> linarith

/-- C3: `unpack_shared_vertices` extracts the 21/21/22-bit fields as fractions
in `[0, 1]`, maps each axis by `frac * (domain_max - domain_min) + domain_min`
with no clamp, and with `domain_min ≤ domain_max` every decoded coordinate
lies inside the domain. -/
theorem C3_shared_decode_bounds :
    (∀ s : ℕ,
        (0 ≤ sharedFracX s ∧ sharedFracX s ≤ 1)
        ∧ (0 ≤ sharedFracY s ∧ sharedFracY s ≤ 1)
        ∧ (0 ≤ sharedFracZ s ∧ sharedFracZ s ≤ 1))
    ∧ (∀ (s : ℕ) (dmin dmax : Vec3),
        unpackSharedVertex s dmin dmax =
          ⟨sharedFracX s * (dmax.x - dmin.x) + dmin.x,
           sharedFracY s * (dmax.y - dmin.y) + dmin.y,
           sharedFracZ s * (dmax.z - dmin.z) + dmin.z⟩)
    ∧ (∀ (shared : List ℕ) (dmin dmax : Vec3),
        dmin.allLE dmax →
        ∀ v ∈ unpack_shared_vertices shared dmin dmax,
          dmin.allLE v ∧ v.allLE dmax) := by
  refine ⟨sharedFrac_bounds, fun s dmin dmax => rfl, ?_⟩
  intro shared dmin dmax h v hv
  obtain ⟨s, _, rfl⟩ := List.mem_map.mp hv
  obtain ⟨hx, hy, hz⟩ := h
  obtain ⟨⟨hx0, hx1⟩, ⟨hy0, hy1⟩, ⟨hz0, hz1⟩⟩ := sharedFrac_bounds s
  obtain ⟨bx1, bx2⟩ := fracMap_bounds (sharedFracX s) dmin.x dmax.x hx0 hx1 hx
  obtain ⟨by1, by2⟩ := fracMap_bounds (sharedFracY s) dmin.y dmax.y hy0 hy1 hy
  obtain ⟨bz1, bz2⟩ := fracMap_bounds (sharedFracZ s) dmin.z dmax.z hz0 hz1 hz
  exact ⟨⟨bx1, by1, bz1⟩, ⟨bx2, by2, bz2⟩⟩

/-- C3 witness: a concrete shared value with all bit fields at their maxima,
decoded over the domain `[-2, 3]`, stays inside the domain. -/
theorem C3_shared_decode_bounds_witness :
    Vec3.allLE ⟨-2, -2, -2⟩ (unpackSharedVertex (2 ^ 64 - 1) ⟨-2, -2, -2⟩ ⟨3, 3, 3⟩)
    ∧ Vec3.allLE (unpackSharedVertex (2 ^ 64 - 1) ⟨-2, -2, -2⟩ ⟨3, 3, 3⟩) ⟨3, 3, 3⟩ :=
  C3_shared_decode_bounds.2.2 [2 ^ 64 - 1] ⟨-2, -2, -2⟩ ⟨3, 3, 3⟩ (by decide) _
    (List.mem_map.mpr ⟨2 ^ 64 - 1, List.mem_singleton.mpr rfl, rfl⟩)

/-- C4: the triangulator emits, per quad `(a, b, c, d)`, the candidates
`(a, b, c)` then `(a, c, d)`, drops exactly the candidates with two equal
indices, and preserves quad order; quad `(1, 2, 3, 4)` keeps both triangles
and quad `(1, 1, 2, 3)` keeps only `(1, 2, 3)`. -/
theorem C4_triangulation :
    (∀ prims : List Quad, trisOfPrimitives prims = trisSpec prims)
    ∧ trisOfPrimitives [⟨1, 2, 3, 4⟩] = [⟨1, 2, 3⟩, ⟨1, 3, 4⟩]
    ∧ trisOfPrimitives [⟨1, 1, 2, 3⟩] = [⟨1, 2, 3⟩] := by
  refine ⟨?_, by decide, by decide⟩
  intro prims
  induction prims with
  | nil => rfl
  | cons q rest ih =>
      simp only [trisOfPrimitives, trisSpec, List.flatMap_cons, List.filter_append]
      simp only [trisOfPrimitives, trisSpec] at ih
      rw [ih]

/-- The rewrite target of one raw corner index, as a pure formula: a raw
index below `numPackedVertices` becomes `firstPackedVertexIndex + v`, any
other becomes `len(packedVertices) + sharedVerticesIndex[firstSharedVertexIndex
+ (v - numPackedVertices)]`. -/
def resolvedValue (numPackedTotal : ℕ) (svi : List ℕ) (sec : HavokSection) (v : ℕ) : ℕ :=
  if v < sec.numPackedVertices then sec.firstPackedVertexIndex + v
  else numPackedTotal +
    svi.getD (sec.firstSharedVertexIndex + (v - sec.numPackedVertices)) 0

/-- The rewrite target of a whole quad. -/
def resolvedQuad (numPackedTotal : ℕ) (svi : List ℕ) (sec : HavokSection) (q : Quad) : Quad :=
  ⟨resolvedValue numPackedTotal svi sec q.a,
   resolvedValue numPackedTotal svi sec q.b,
   resolvedValue numPackedTotal svi sec q.c,
   resolvedValue numPackedTotal svi sec q.d⟩

/-- The four corner values of a quad. -/
def cornerList (q : Quad) : List ℕ := [q.a, q.b, q.c, q.d]

theorem resolveIndex_ok (numPackedTotal : ℕ) (svi : List ℕ) (sec : HavokSection)
    (v r : ℕ) (h : resolveIndex numPackedTotal svi sec v = .ok r) :
    r = resolvedValue numPackedTotal svi sec v
    ∧ (sec.numPackedVertices ≤ v →
        sec.firstSharedVertexIndex + (v - sec.numPackedVertices) < svi.length) := by
  unfold resolveIndex at h
  unfold resolvedValue
  split at h
  · rename_i hlt
    rw [if_pos hlt]
    refine ⟨by cases h; omega, fun hle => absurd hlt (by omega)⟩
  · rename_i hge
    rw [if_neg hge]
    split at h
    · rename_i w hw
      cases h
      rw [List.getD_eq_getElem?_getD, hw]
      exact ⟨rfl, fun _ => (List.getElem?_eq_some.mp hw).1⟩
    · cases h

theorem resolveQuad_ok (numPackedTotal : ℕ) (svi : List ℕ) (sec : HavokSection)
    (q q2 : Quad) (h : resolveQuad numPackedTotal svi sec q = .ok q2) :
    q2 = resolvedQuad numPackedTotal svi sec q
    ∧ ∀ v ∈ cornerList q, sec.numPackedVertices ≤ v →
        sec.firstSharedVertexIndex + (v - sec.numPackedVertices) < svi.length := by
  unfold resolveQuad at h
  cases ha : resolveIndex numPackedTotal svi sec q.a with
  | error e => rw [ha] at h; exact absurd h (by simp [Bind.bind, Except.bind])
  | ok ra =>
  cases hb : resolveIndex numPackedTotal svi sec q.b with
  | error e => rw [ha, hb] at h; exact absurd h (by simp [Bind.bind, Except.bind])
  | ok rb =>
  cases hc : resolveIndex numPackedTotal svi sec q.c with
  | error e => rw [ha, hb, hc] at h; exact absurd h (by simp [Bind.bind, Except.bind])
  | ok rc =>
  cases hd : resolveIndex numPackedTotal svi sec q.d with
  | error e => rw [ha, hb, hc, hd] at h; exact absurd h (by simp [Bind.bind, Except.bind])
  | ok rd =>
  rw [ha, hb, hc, hd] at h
  simp only [Bind.bind, Except.bind, pure, Except.pure, Except.ok.injEq] at h
  obtain ⟨pa, ba⟩ := resolveIndex_ok numPackedTotal svi sec q.a ra ha
  obtain ⟨pb, bb⟩ := resolveIndex_ok numPackedTotal svi sec q.b rb hb
  obtain ⟨pc, bc⟩ := resolveIndex_ok numPackedTotal svi sec q.c rc hc
  obtain ⟨pd, bd⟩ := resolveIndex_ok numPackedTotal svi sec q.d rd hd
  subst h
  constructor
  · unfold resolvedQuad
    rw [pa, pb, pc, pd]
  · intro v hv
    simp only [cornerList, List.mem_cons, List.not_mem_nil, or_false] at hv
    rcases hv with rfl | rfl | rfl | rfl <;> assumption

theorem exceptBind_ok_iff {α β : Type _} {x : Except ExtractErr α}
    {f : α → Except ExtractErr β} {b : β} :
    (x >>= f) = .ok b ↔ ∃ a, x = .ok a ∧ f a = .ok b := by
  cases x <;> simp [Bind.bind, Except.bind]

theorem exceptPure_ok_iff {α : Type _} {a b : α} :
    (pure a : Except ExtractErr α) = .ok b ↔ a = b := by
  simp [pure, Except.pure]

theorem rewriteFrom_ok (numPackedTotal : ℕ) (svi : List ℕ) (sec : HavokSection)
    (prims : List Quad) :
    ∀ (pos : ℕ) (prims2 : List Quad),
      rewriteFrom numPackedTotal svi sec pos prims = .ok prims2 →
      prims2.length = prims.length
      ∧ ∀ j q, prims[j]? = some q →
          ((sec.firstPrimitiveIndex ≤ pos + j ∧
              pos + j < sec.firstPrimitiveIndex + sec.numPrimitives) →
            prims2[j]? = some (resolvedQuad numPackedTotal svi sec q)
            ∧ ∀ v ∈ cornerList q, sec.numPackedVertices ≤ v →
                sec.firstSharedVertexIndex + (v - sec.numPackedVertices) < svi.length)
          ∧ (¬(sec.firstPrimitiveIndex ≤ pos + j ∧
              pos + j < sec.firstPrimitiveIndex + sec.numPrimitives) →
            prims2[j]? = some q) := by
  induction prims with
  | nil =>
      intro pos prims2 h
      simp only [rewriteFrom] at h
      cases h
      refine ⟨rfl, ?_⟩
      intro j q hj
      simp at hj
  | cons q rest ih =>
      intro pos prims2 h
      simp only [rewriteFrom] at h
      by_cases hin : sec.firstPrimitiveIndex ≤ pos ∧
          pos < sec.firstPrimitiveIndex + sec.numPrimitives
      · rw [if_pos hin] at h
        rw [exceptBind_ok_iff] at h
        obtain ⟨q2, hq2, h⟩ := h
        rw [exceptBind_ok_iff] at h
        obtain ⟨rest2, hrest, h⟩ := h
        rw [exceptPure_ok_iff] at h
        subst h
        obtain ⟨ihlen, ihget⟩ := ih (pos + 1) rest2 hrest
        refine ⟨by simp [ihlen], ?_⟩
        intro j qq hj
        cases j with
        | zero =>
            simp only [List.getElem?_cons_zero, Option.some.injEq] at hj
            subst hj
            constructor
            · intro _
              obtain ⟨hqv, hbounds⟩ := resolveQuad_ok _ _ _ _ _ hq2
              subst hqv
              exact ⟨List.getElem?_cons_zero, hbounds⟩
            · intro hno
              exact absurd (by omega : sec.firstPrimitiveIndex ≤ pos + 0 ∧
                pos + 0 < sec.firstPrimitiveIndex + sec.numPrimitives) hno
        | succ jj =>
            simp only [List.getElem?_cons_succ] at hj ⊢
            have hstep := ihget jj qq hj
            have heq : pos + 1 + jj = pos + (jj + 1) := by omega
            rw [heq] at hstep
            exact hstep
      · rw [if_neg hin] at h
        rw [exceptBind_ok_iff] at h
        obtain ⟨q2, hq2, h⟩ := h
        rw [exceptPure_ok_iff] at hq2
        subst hq2
        rw [exceptBind_ok_iff] at h
        obtain ⟨rest2, hrest, h⟩ := h
        rw [exceptPure_ok_iff] at h
        subst h
        obtain ⟨ihlen, ihget⟩ := ih (pos + 1) rest2 hrest
        refine ⟨by simp [ihlen], ?_⟩
        intro j qq hj
        cases j with
        | zero =>
            simp only [List.getElem?_cons_zero, Option.some.injEq] at hj
            subst hj
            constructor
            · intro hyes
              exact absurd (by omega : sec.firstPrimitiveIndex ≤ pos ∧
                pos < sec.firstPrimitiveIndex + sec.numPrimitives) hin
            · intro _
              exact List.getElem?_cons_zero
        | succ jj =>
            simp only [List.getElem?_cons_succ] at hj ⊢
            have hstep := ihget jj qq hj
            have heq : pos + 1 + jj = pos + (jj + 1) := by omega
            rw [heq] at hstep
            exact hstep

/-- C1: during geometry construction, every corner `v` of a primitive lying
in a section's slice `[firstPrimitiveIndex, firstPrimitiveIndex +
numPrimitives)` is rewritten in place: to `firstPackedVertexIndex + v` when
`v < numPackedVertices`, and otherwise to `len(packedVertices) +
sharedVerticesIndex[firstSharedVertexIndex + (v - numPackedVertices)]`
(which the rewrite read in bounds). -/
theorem C1_index_resolution (numPackedTotal : ℕ) (svi : List ℕ) (sec : HavokSection)
    (prims prims2 : List Quad)
    (h : rewriteSection numPackedTotal svi sec prims = .ok prims2)
    (j : ℕ) (q : Quad) (hj : prims[j]? = some q)
    (h1 : sec.firstPrimitiveIndex ≤ j)
    (h2 : j < sec.firstPrimitiveIndex + sec.numPrimitives) :
    prims2[j]? = some (resolvedQuad numPackedTotal svi sec q)
    ∧ ∀ v ∈ cornerList q, sec.numPackedVertices ≤ v →
        sec.firstSharedVertexIndex + (v - sec.numPackedVertices) < svi.length := by
  have hall := (rewriteFrom_ok numPackedTotal svi sec prims 0 prims2 h).2 j q hj
  exact hall.1 (by omega)

/-- Concrete section for the C1 example: 2 packed vertices starting at
global packed index 7, shared indirection offset 0, owning primitive 0. -/
def c1sec : HavokSection :=
  ⟨⟨0, 0, 0⟩, ⟨1, 1, 1⟩, ⟨⟨0, 0, 0⟩, ⟨1, 1, 1⟩⟩, 7, 0, 0, 2, 1, 0, 0⟩

/-- C1 witness: with `numPackedVertices = 2`, `sharedVerticesIndex = [5]` and
10 packed vertices in total, the quad `(0, 2, 1, 2)` is rewritten to
`(7, 15, 8, 15)`: raw 0 resolves to `firstPackedVertexIndex` and raw 2
resolves to `len(packedVertices) + 5`. -/
theorem C1_index_resolution_witness :
    ([⟨7, 15, 8, 15⟩] : List Quad)[0]? = some (resolvedQuad 10 [5] c1sec ⟨0, 2, 1, 2⟩)
    ∧ ∀ v ∈ cornerList ⟨0, 2, 1, 2⟩, c1sec.numPackedVertices ≤ v →
        c1sec.firstSharedVertexIndex + (v - c1sec.numPackedVertices) <
          ([5] : List ℕ).length :=
  C1_index_resolution 10 [5] c1sec [⟨0, 2, 1, 2⟩] [⟨7, 15, 8, 15⟩] rfl 0 ⟨0, 2, 1, 2⟩
    rfl (by decide) (by decide)

/-- Section node for the C5 input: no packed vertices, one primitive,
indirecting through `sharedVerticesIndex` from offset 0. -/
def c5secTag : List (String × TagObject) :=
  [("domain", .map [("min", .seq [.float 0, .float 0, .float 0]),
                    ("max", .seq [.float 1, .float 1, .float 1])]),
   ("codecParms", .seq [.float 0, .float 0, .float 0, .float 0, .float 0, .float 0]),
   ("firstPackedVertexIndex", .int 0),
   ("firstSharedVertexIndex", .int 0),
   ("firstPrimitiveIndex", .int 0),
   ("numPackedVertices", .int 0),
   ("numPrimitives", .int 1),
   ("firstDataRunIndex", .int 0),
   ("numDataRuns", .int 0)]

/-- Mesh tree for the C5 input: one shared vertex, an indirection table whose
single entry `5` points far outside the decoded vertex array. -/
def c5tree : List (String × TagObject) :=
  [("domain", .map [("min", .seq [.float 0, .float 0, .float 0]),
                    ("max", .seq [.float 1, .float 1, .float 1])]),
   ("primitives", .seq [.map [("indices", .seq [.int 0, .int 0, .int 0, .int 0])]]),
   ("sharedVerticesIndex", .seq [.int 5]),
   ("sections", .seq [.map c5secTag]),
   ("sharedVertices", .seq [.int 0]),
   ("packedVertices", .seq [])]

/-- The section that `c5secTag` parses to. -/
def c5sec : HavokSection :=
  ⟨⟨0, 0, 0⟩, ⟨1, 1, 1⟩, ⟨⟨0, 0, 0⟩, ⟨0, 0, 0⟩⟩, 0, 0, 0, 0, 1, 0, 0⟩

/-- The geometry the C5 input constructs: a single decoded vertex but every
primitive corner rewritten to the out-of-range global index 5. -/
def c5geom : HavokGeometry :=
  { name := "g", domain_min := ⟨0, 0, 0⟩, domain_max := ⟨1, 1, 1⟩,
    primitives := [⟨5, 5, 5, 5⟩], sharedVertices := [0], sharedVerticesIndex := [5],
    packedVertices := [], sections := [c5sec], verts := [⟨0, 0, 0⟩] }

/-- C5 counterexample: the index-resolution rewrite produces corner index 5
with `len(verts) = 1`, yet construction succeeds and returns the geometry —
there is no `CorruptGeometry` rejection of out-of-range indices. -/
theorem C5_corrupt_geometry_counterexample :
    HavokGeometry.ofTag "g" c5tree = .ok c5geom
    ∧ c5geom.verts.length = 1
    ∧ c5geom.primitives = [⟨5, 5, 5, 5⟩] := by
  refine ⟨?_, rfl, rfl⟩
  simp [HavokGeometry.ofTag, lookupKey, TagObject.getKey, TagObject.asSeq,
    TagObject.asMap, TagObject.asNat, TagObject.asRat, readVec3, HavokSection.ofTag,
    readQuad, readNatArray, buildGeometry, applySection, setSlice, rewriteSection,
    rewriteFrom, resolveQuad, resolveIndex, unpack_shared_vertices, unpackSharedVertex,
    sharedFracX, sharedFracY, sharedFracZ, unpack_packed_vertices, unpackPackedVertex,
    clampVec, clampQ, vDefault, Bind.bind, Except.bind, pure, Except.pure,
    List.lookup, List.mapM, List.mapM.loop, List.foldlM, c5tree, c5secTag, c5sec, c5geom]

/-- C5 amended: construction performs no range validation of resolved global
indices — one corner's resolution succeeds exactly when the raw index is
section-local or its indirection-table offset is inside
`sharedVerticesIndex`, regardless of whether the resulting global index fits
in `[0, len(verts))`. -/
theorem C5_resolution_unchecked (numPackedTotal : ℕ) (svi : List ℕ)
    (sec : HavokSection) (v : ℕ) :
    (∃ r, resolveIndex numPackedTotal svi sec v = .ok r) ↔
      (v < sec.numPackedVertices ∨
        sec.firstSharedVertexIndex + (v - sec.numPackedVertices) < svi.length) := by
  unfold resolveIndex
  by_cases hlt : v < sec.numPackedVertices
  · simp [hlt]
  · rw [if_neg hlt]
    cases hw : svi[sec.firstSharedVertexIndex + (v - sec.numPackedVertices)]? with
    | some w =>
        simp only [hw]
        exact iff_of_true ⟨numPackedTotal + w, rfl⟩
          (Or.inr (List.getElem?_eq_some.mp hw).1)
    | none =>
        simp only [hw]
        constructor
        · rintro ⟨r, hr⟩
          cases hr
        · rintro (h | h)
          · exact absurd h hlt
          · rw [List.getElem?_eq_getElem h] at hw
            cases hw

/-- Section node of a well-formed single-shared-vertex mesh tree. -/
def okSecTag : List (String × TagObject) :=
  [("domain", .map [("min", .seq [.float 0, .float 0, .float 0]),
                    ("max", .seq [.float 1, .float 1, .float 1])]),
   ("codecParms", .seq [.float 0, .float 0, .float 0, .float 0, .float 0, .float 0]),
   ("firstPackedVertexIndex", .int 0),
   ("firstSharedVertexIndex", .int 0),
   ("firstPrimitiveIndex", .int 0),
   ("numPackedVertices", .int 0),
   ("numPrimitives", .int 1),
   ("firstDataRunIndex", .int 0),
   ("numDataRuns", .int 0)]

/-- A minimal well-formed mesh tree: one shared vertex, one quad, all
resolved indices in range. -/
def okMeshTree : List (String × TagObject) :=
  [("domain", .map [("min", .seq [.float 0, .float 0, .float 0]),
                    ("max", .seq [.float 1, .float 1, .float 1])]),
   ("primitives", .seq [.map [("indices", .seq [.int 0, .int 0, .int 0, .int 0])]]),
   ("sharedVerticesIndex", .seq [.int 0]),
   ("sections", .seq [.map okSecTag]),
   ("sharedVertices", .seq [.int 0]),
   ("packedVertices", .seq [])]

/-- A resource entry named "Collision Physics Data" holding the given bodies. -/
def mkEntry (bodies : List TagObject) : TagObject :=
  .map [("name", .str "Collision Physics Data"),
        ("variant", .map [("bodyCinfos", .seq bodies)])]

/-- A root tag with a single named variant holding the given resource entries. -/
def mkRoot (entries : List TagObject) : TagObject :=
  .map [("namedVariants",
         .seq [.map [("variant", .map [("resourceHandles", .seq entries)])]])]

/-- A body whose mesh tree is well formed. -/
def c6goodBody : TagObject :=
  .map [("name", .str "good"),
        ("shape", .map [("data", .map [("meshTree", .map okMeshTree)])])]

/-- A body whose mesh tree is empty: its construction raises the `KeyError`
for the missing `domain` key. -/
def c6badBody : TagObject :=
  .map [("name", .str "bad"),
        ("shape", .map [("data", .map [("meshTree", .map [])])])]

/-- Input with a malformed body followed by a well-formed one. -/
def c6root : TagObject := mkRoot [mkEntry [c6badBody, c6goodBody]]

/-- The same input with the malformed body removed. -/
def c6rootGood : TagObject := mkRoot [mkEntry [c6goodBody]]

/-- C6 counterexample: with a malformed first body and a well-formed second
body, `read_geoms_from_havok` returns the first body's `KeyError` and none of
the geometries — yet the second body alone extracts fine, so the failure was
not isolated to the failing body. -/
theorem C6_isolation_counterexample :
    read_geoms_from_havok .Object c6root = .error (.keyError "domain")
    ∧ (read_geoms_from_havok .Object c6rootGood).map (List.map HavokGeometry.name) =
        .ok ["good"] := by
  constructor <;>
    simp [read_geoms_from_havok, rootVariants, extractFromVariant, extractGeoms,
      processEntry, processBody, isCollisionName, HavokGeometry.ofTag, lookupKey,
      TagObject.getKey, TagObject.asSeq, TagObject.asMap, TagObject.asNat,
      TagObject.asRat, TagObject.asStr, readVec3, HavokSection.ofTag, readQuad,
      readNatArray, buildGeometry, applySection, setSlice, rewriteSection,
      rewriteFrom, resolveQuad, resolveIndex, unpack_shared_vertices,
      unpackSharedVertex, sharedFracX, sharedFracY, sharedFracZ,
      unpack_packed_vertices, unpackPackedVertex, clampVec, clampQ, vDefault,
      Bind.bind, Except.bind, pure, Except.pure, Except.map, List.lookup,
      List.mapM, List.mapM.loop, List.foldlM, c6root, c6rootGood, mkRoot, mkEntry,
      c6badBody, c6goodBody, okMeshTree, okSecTag]

theorem mapM_error_of_mem {α β : Type _} (f : α → Except ExtractErr β)
    (val : α) (e : ExtractErr) (post : List α) :
    ∀ pre : List α, (∀ u ∈ pre, ∃ gs, f u = .ok gs) → f val = .error e →
      (pre ++ val :: post).mapM f = .error e := by
  intro pre
  induction pre with
  | nil =>
      intro _ hval
      rw [List.nil_append, List.mapM_cons, hval]
      simp [Bind.bind, Except.bind]
  | cons u rest ih =>
      intro hpre hval
      obtain ⟨gs, hgs⟩ := hpre u (List.mem_cons_self u rest)
      rw [List.cons_append, List.mapM_cons, hgs]
      have := ih (fun w hw => hpre w (List.mem_cons_of_mem u hw)) hval
      simp only [List.mapM] at this
      simp [Bind.bind, Except.bind, this]

/-- C6 amended: per-geometry failures are not isolated — as soon as one
resource entry's processing fails (for example because one of its bodies'
geometry construction fails), the whole extraction loop returns that error
and no geometries at all, with no per-body reporting. -/
theorem C6_failure_aborts_batch (pre post : List TagObject) (val : TagObject)
    (e : ExtractErr) (hpre : ∀ u ∈ pre, ∃ gs, processEntry u = .ok gs)
    (hval : processEntry val = .error e) :
    extractGeoms (pre ++ val :: post) = .error e := by
  unfold extractGeoms
  rw [mapM_error_of_mem processEntry val e post pre hpre hval]
  rfl

/-- C6 amended witness: the loop on the single malformed entry returns the
`KeyError` of its first body's construction. -/
theorem C6_failure_aborts_batch_witness :
    extractGeoms [mkEntry [c6badBody, c6goodBody]] = .error (.keyError "domain") :=
  C6_failure_aborts_batch [] [] (mkEntry [c6badBody, c6goodBody]) (.keyError "domain")
    (fun u hu => absurd hu (List.not_mem_nil u))
    (by simp [processEntry, processBody, isCollisionName, HavokGeometry.ofTag,
      lookupKey, TagObject.getKey, TagObject.asSeq, TagObject.asMap, TagObject.asNat,
      TagObject.asRat, TagObject.asStr, readVec3, Bind.bind, Except.bind, pure,
      Except.pure, List.lookup, List.mapM, List.mapM.loop, mkEntry, c6badBody,
      c6goodBody, okMeshTree, okSecTag])

/-- A section node with `domain` present but `codecParms` missing. -/
def c7badSecTag : List (String × TagObject) :=
  [("domain", .map [("min", .seq [.float 0, .float 0, .float 0]),
                    ("max", .seq [.float 1, .float 1, .float 1])])]

/-- A mesh tree whose only section node is missing `codecParms`. -/
def c7badMeshTree : List (String × TagObject) :=
  [("domain", .map [("min", .seq [.float 0, .float 0, .float 0]),
                    ("max", .seq [.float 1, .float 1, .float 1])]),
   ("primitives", .seq [.map [("indices", .seq [.int 0, .int 0, .int 0, .int 0])]]),
   ("sharedVerticesIndex", .seq [.int 0]),
   ("sections", .seq [.map c7badSecTag]),
   ("sharedVertices", .seq [.int 0]),
   ("packedVertices", .seq [])]

/-- A body whose mesh tree has the malformed section. -/
def c7badBody : TagObject :=
  .map [("name", .str "bad2"),
        ("shape", .map [("data", .map [("meshTree", .map c7badMeshTree)])])]

/-- A well-formed body distinct from the C6 one. -/
def c7goodBody : TagObject :=
  .map [("name", .str "g2"),
        ("shape", .map [("data", .map [("meshTree", .map okMeshTree)])])]

/-- Input with a body whose section is malformed, next to a well-formed body. -/
def c7root : TagObject := mkRoot [mkEntry [c7badBody, c7goodBody]]

/-- The same input with the malformed body removed. -/
def c7rootGood : TagObject := mkRoot [mkEntry [c7goodBody]]

/-- C7 counterexample: a missing `codecParms` key in one body's section node
makes the whole extraction return that `KeyError` — the well-formed second
body (extractable on its own) is lost too, so the error does not abort the
reconstruction of that one geometry only. -/
theorem C7_malformed_tag_counterexample :
    read_geoms_from_havok .Object c7root = .error (.keyError "codecParms")
    ∧ (read_geoms_from_havok .Object c7rootGood).map (List.map HavokGeometry.name) =
        .ok ["g2"] := by
  constructor <;>
    simp [read_geoms_from_havok, rootVariants, extractFromVariant, extractGeoms,
      processEntry, processBody, isCollisionName, HavokGeometry.ofTag, lookupKey,
      TagObject.getKey, TagObject.asSeq, TagObject.asMap, TagObject.asNat,
      TagObject.asRat, TagObject.asStr, readVec3, HavokSection.ofTag, readQuad,
      readNatArray, buildGeometry, applySection, setSlice, rewriteSection,
      rewriteFrom, resolveQuad, resolveIndex, unpack_shared_vertices,
      unpackSharedVertex, sharedFracX, sharedFracY, sharedFracZ,
      unpack_packed_vertices, unpackPackedVertex, clampVec, clampQ, vDefault,
      Bind.bind, Except.bind, pure, Except.pure, Except.map, List.lookup,
      List.mapM, List.mapM.loop, List.foldlM, c7root, c7rootGood, mkRoot, mkEntry,
      c7badBody, c7goodBody, c7badMeshTree, c7badSecTag, okMeshTree, okSecTag]

/-- C7 amended: a missing required key makes `HavokSection` construction fail
with the `KeyError` naming that key (shown for the first-read key `domain`
in general and for `codecParms` on a concrete input); the error is not
recovered locally — it propagates out of `read_geoms_from_havok` and aborts
the entire extraction run, not only that one geometry's reconstruction. -/
theorem C7_malformed_tag_aborts_run :
    (∀ entries : List (String × TagObject), entries.lookup "domain" = none →
      HavokSection.ofTag entries = .error (.keyError "domain"))
    ∧ HavokSection.ofTag c7badSecTag = .error (.keyError "codecParms")
    ∧ read_geoms_from_havok .Object c7root = .error (.keyError "codecParms") := by
  refine ⟨?_, ?_, ?_⟩
  · intro entries h
    simp [HavokSection.ofTag, lookupKey, h, Bind.bind, Except.bind]
  · simp [HavokSection.ofTag, lookupKey, readVec3, TagObject.getKey,
      TagObject.asSeq, TagObject.asRat, Bind.bind, Except.bind, pure, Except.pure,
      List.lookup, c7badSecTag]
  · simp [read_geoms_from_havok, rootVariants, extractFromVariant, extractGeoms,
      processEntry, processBody, isCollisionName, HavokGeometry.ofTag, lookupKey,
      TagObject.getKey, TagObject.asSeq, TagObject.asMap, TagObject.asNat,
      TagObject.asRat, TagObject.asStr, readVec3, HavokSection.ofTag, readQuad,
      readNatArray, Bind.bind, Except.bind, pure, Except.pure, List.lookup,
      List.mapM, List.mapM.loop, c7root, mkRoot, mkEntry, c7badBody, c7goodBody,
      c7badMeshTree, c7badSecTag, okMeshTree, okSecTag]

/-- C7 amended witness: section construction on an empty mapping fails with
the `KeyError` for `domain`. -/
theorem C7_malformed_tag_aborts_run_witness :
    HavokSection.ofTag [] = .error (.keyError "domain") :=
  C7_malformed_tag_aborts_run.1 [] rfl

/-- C10: `read_geoms_from_havok` asserts, before touching any geometry, that
the stream is an Object-type tag file and that `namedVariants` has exactly
one element; a wrong file type or a zero/many-variant root yields an
`AssertionError` (not an empty result), and under the precondition both
asserts pass and extraction proceeds with the single variant. -/
theorem C10_entry_asserts :
    (∀ (ft : TagFileType) (root : TagObject), ft ≠ .Object →
        read_geoms_from_havok ft root = .error .assertionError)
    ∧ (∀ (root : TagObject) (nv : List TagObject), rootVariants root = .ok nv →
        nv.length ≠ 1 → read_geoms_from_havok .Object root = .error .assertionError)
    ∧ (∀ (root v0 : TagObject), rootVariants root = .ok [v0] →
        read_geoms_from_havok .Object root = extractFromVariant v0) := by
  refine ⟨?_, ?_, ?_⟩
  · intro ft root h
    unfold read_geoms_from_havok
    rw [if_pos h]
  · intro root nv hnv hlen
    unfold read_geoms_from_havok
    rw [if_neg (by simp)]
    simp only [hnv, Bind.bind, Except.bind]
    match nv, hlen with
    | [], _ => rfl
    | [v0], hlen => exact absurd rfl hlen
    | v0 :: v1 :: rest, _ => rfl
  · intro root v0 hnv
    unfold read_geoms_from_havok
    rw [if_neg (by simp)]
    simp only [hnv, Bind.bind, Except.bind]

/-- C10 witness: a Compendium-type stream fails the first assert, and a root
whose `namedVariants` is empty fails the second; both crash with an
`AssertionError` instead of returning an empty result. -/
theorem C10_entry_asserts_witness :
    read_geoms_from_havok .Compendium (.map []) = .error .assertionError
    ∧ read_geoms_from_havok .Object (.map [("namedVariants", .seq [])]) =
        .error .assertionError :=
  ⟨C10_entry_asserts.1 .Compendium (.map []) (by simp),
   C10_entry_asserts.2.1 (.map [("namedVariants", .seq [])]) [] rfl (by simp)⟩

theorem exceptBind_assoc {α β γ : Type _} (x : Except ExtractErr α)
    (f : α → Except ExtractErr β) (g : β → Except ExtractErr γ) :
    ((x >>= f) >>= g) = x >>= fun a => f a >>= g := by
  cases x <;> rfl

theorem exceptBind_congr {α β : Type _} {x : Except ExtractErr α}
    {f g : α → Except ExtractErr β} (h : ∀ a, f a = g a) :
    (x >>= f) = x >>= g := by
  cases x with
  | error e => rfl
  | ok a => simpa [Bind.bind, Except.bind] using h a

theorem exceptMap_ok_iff {α β : Type _} {f : α → β} {x : Except ExtractErr α} {y : β} :
    Except.map f x = .ok y ↔ ∃ a, x = .ok a ∧ y = f a := by
  cases x <;> simp [Except.map, eq_comm]

theorem mapM_nil_ok_iff {α β : Type _} {f : α → Except ExtractErr β} {ys : List β} :
    ([] : List α).mapM f = .ok ys ↔ ys = [] := by
  rw [List.mapM_nil, exceptPure_ok_iff, eq_comm]

theorem mapM_cons_ok_iff {α β : Type _} {f : α → Except ExtractErr β} {a : α}
    {l : List α} {ys : List β} :
    (a :: l).mapM f = .ok ys ↔
      ∃ y ys2, f a = .ok y ∧ l.mapM f = .ok ys2 ∧ ys = y :: ys2 := by
  rw [List.mapM_cons]
  constructor
  · intro h
    rw [exceptBind_ok_iff] at h
    obtain ⟨y, hy, h⟩ := h
    rw [exceptBind_ok_iff] at h
    obtain ⟨ys2, hys, h⟩ := h
    rw [exceptPure_ok_iff] at h
    exact ⟨y, ys2, hy, hys, h.symm⟩
  · rintro ⟨y, ys2, hy, hys, rfl⟩
    rw [exceptBind_ok_iff]
    refine ⟨y, hy, ?_⟩
    rw [exceptBind_ok_iff]
    exact ⟨ys2, hys, rfl⟩

theorem mapM_append_ok_iff {α β : Type _} {f : α → Except ExtractErr β}
    {l1 l2 : List α} {ys : List β} :
    (l1 ++ l2).mapM f = .ok ys ↔
      ∃ ys1 ys2, l1.mapM f = .ok ys1 ∧ l2.mapM f = .ok ys2 ∧ ys = ys1 ++ ys2 := by
  induction l1 generalizing ys with
  | nil =>
      simp only [List.nil_append, mapM_nil_ok_iff]
      constructor
      · intro h
        exact ⟨[], ys, rfl, h, rfl⟩
      · rintro ⟨ys1, ys2, h1, h2, rfl⟩
        subst h1
        simpa using h2
  | cons a l ih =>
      rw [List.cons_append, mapM_cons_ok_iff]
      constructor
      · rintro ⟨y, ysr, hy, hrest, rfl⟩
        obtain ⟨ys1, ys2, h1, h2, rfl⟩ := ih.mp hrest
        exact ⟨y :: ys1, ys2, mapM_cons_ok_iff.mpr ⟨y, ys1, hy, h1, rfl⟩, h2, rfl⟩
      · rintro ⟨ys1, ys2, h1, h2, rfl⟩
        rw [mapM_cons_ok_iff] at h1
        obtain ⟨y, ys1r, hy, h1r, rfl⟩ := h1
        exact ⟨y, ys1r ++ ys2, hy, ih.mpr ⟨ys1r, ys2, h1r, h2, rfl⟩, rfl⟩

theorem mapM_comp_iff {α β γ : Type _} (s : α → Except ExtractErr β)
    (co : β → Except ExtractErr γ) (l : List α) (ys : List γ) :
    l.mapM (fun a => s a >>= co) = .ok ys ↔
      ∃ xs, l.mapM s = .ok xs ∧ xs.mapM co = .ok ys := by
  induction l generalizing ys with
  | nil =>
      simp only [mapM_nil_ok_iff]
      constructor
      · rintro rfl
        exact ⟨[], rfl, mapM_nil_ok_iff.mpr rfl⟩
      · rintro ⟨xs, hxs, hys⟩
        subst hxs
        exact mapM_nil_ok_iff.mp hys
  | cons a l ih =>
      constructor
      · intro h
        rw [mapM_cons_ok_iff] at h
        obtain ⟨y, ys2, hy, hrest, rfl⟩ := h
        rw [exceptBind_ok_iff] at hy
        obtain ⟨x, hx, hco⟩ := hy
        obtain ⟨xs, hxs, hcos⟩ := (ih ys2).mp hrest
        exact ⟨x :: xs, mapM_cons_ok_iff.mpr ⟨x, xs, hx, hxs, rfl⟩,
          mapM_cons_ok_iff.mpr ⟨y, ys2, hco, hcos, rfl⟩⟩
      · rintro ⟨xs, hxs, hcos⟩
        rw [mapM_cons_ok_iff] at hxs
        obtain ⟨x, xs2, hx, hxs2, rfl⟩ := hxs
        rw [mapM_cons_ok_iff] at hcos
        obtain ⟨y, ys2, hco, hcos2, rfl⟩ := hcos
        refine mapM_cons_ok_iff.mpr ⟨y, ys2, ?_, (ih ys2).mpr ⟨xs2, hxs2, hcos2⟩, rfl⟩
        rw [exceptBind_ok_iff]
        exact ⟨x, hx, hco⟩

/-- Construction step applied to one selected body option. -/
def coB (ob : Option (String × List (String × TagObject))) :
    Except ExtractErr (Option HavokGeometry) :=
  match ob with
  | none => pure none
  | some b => Except.map some (constructBody b)

theorem processBody_eq (body : TagObject) :
    processBody body = selectBody body >>= coB := by
  unfold processBody selectBody
  rw [exceptBind_assoc]
  apply exceptBind_congr
  intro bm
  rw [exceptBind_assoc]
  apply exceptBind_congr
  intro shapeObj
  rw [exceptBind_assoc]
  apply exceptBind_congr
  intro shape
  by_cases hd : (shape.lookup "data").isSome
  · rw [if_pos hd, if_pos hd, exceptBind_assoc]
    apply exceptBind_congr
    intro nameObj
    rw [exceptBind_assoc]
    apply exceptBind_congr
    intro name
    rw [exceptBind_assoc]
    apply exceptBind_congr
    intro dataObj
    rw [exceptBind_assoc]
    apply exceptBind_congr
    intro dataM
    rw [exceptBind_assoc]
    apply exceptBind_congr
    intro mtObj
    rw [exceptBind_assoc]
    apply exceptBind_congr
    intro meshTree
    cases h : HavokGeometry.ofTag name meshTree <;>
      simp [Bind.bind, Except.bind, pure, Except.pure, coB, constructBody,
        Except.map, h]
  · rw [if_neg hd, if_neg hd]
    rfl

/-- The shared parse prefix of `processEntry` and `selectEntry`: the bodies
of one resource entry, the empty list when the entry is skipped. -/
def entryBodies (val : TagObject) : Except ExtractErr (List TagObject) := do
  let m ← val.asMap
  let nameNode ← lookupKey m "name"
  if isCollisionName nameNode then do
    let subVal ← (← lookupKey m "variant").asMap
    match subVal.lookup "bodyCinfos" with
    | some bc => bc.asSeq
    | none => pure []
  else pure []

theorem processEntry_eq (val : TagObject) :
    processEntry val = entryBodies val >>= fun bodies =>
      bodies.mapM processBody >>= fun ogs => pure (ogs.filterMap id) := by
  unfold processEntry entryBodies
  rw [exceptBind_assoc]
  apply exceptBind_congr
  intro m
  rw [exceptBind_assoc]
  apply exceptBind_congr
  intro nameNode
  by_cases hn : isCollisionName nameNode = true
  · rw [if_pos hn, if_pos hn, exceptBind_assoc]
    apply exceptBind_congr
    intro subValObj
    rw [exceptBind_assoc]
    apply exceptBind_congr
    intro subVal
    cases hlk : subVal.lookup "bodyCinfos" with
    | some bc =>
        simp only [hlk]
    | none =>
        simp only [hlk]
        rfl
  · rw [if_neg hn, if_neg hn]
    rfl

theorem selectEntry_eq (val : TagObject) :
    selectEntry val = entryBodies val >>= fun bodies =>
      bodies.mapM selectBody >>= fun obs => pure (obs.filterMap id) := by
  unfold selectEntry entryBodies
  rw [exceptBind_assoc]
  apply exceptBind_congr
  intro m
  rw [exceptBind_assoc]
  apply exceptBind_congr
  intro nameNode
  by_cases hn : isCollisionName nameNode = true
  · rw [if_pos hn, if_pos hn, exceptBind_assoc]
    apply exceptBind_congr
    intro subValObj
    rw [exceptBind_assoc]
    apply exceptBind_congr
    intro subVal
    cases hlk : subVal.lookup "bodyCinfos" with
    | some bc =>
        simp only [hlk]
    | none =>
        simp only [hlk]
        rfl
  · rw [if_neg hn, if_neg hn]
    rfl

theorem mapM_coB_filterMap_iff :
    ∀ (obs : List (Option (String × List (String × TagObject))))
      (gs : List HavokGeometry),
      (obs.filterMap id).mapM constructBody = .ok gs ↔
        ∃ ogs, obs.mapM coB = .ok ogs ∧ ogs.filterMap id = gs := by
  intro obs
  induction obs with
  | nil =>
      intro gs
      simp only [List.filterMap_nil, mapM_nil_ok_iff]
      constructor
      · rintro rfl
        exact ⟨[], rfl, rfl⟩
      · rintro ⟨ogs, rfl, h⟩
        simpa using h.symm
  | cons ob rest ih =>
      intro gs
      cases ob with
      | none =>
          simp only [List.filterMap_cons, id_eq]
          constructor
          · intro h
            obtain ⟨ogs2, h2, hfm⟩ := (ih gs).mp h
            exact ⟨none :: ogs2, mapM_cons_ok_iff.mpr ⟨none, ogs2, rfl, h2, rfl⟩,
              by simpa [List.filterMap_cons] using hfm⟩
          · rintro ⟨ogs, hogs, hfm⟩
            rw [mapM_cons_ok_iff] at hogs
            obtain ⟨og0, ogs2, hog0, hogs2, rfl⟩ := hogs
            have hog0n : og0 = none := by
              simpa [coB, pure, Except.pure] using hog0.symm
            subst hog0n
            simp only [List.filterMap_cons, id_eq] at hfm
            exact (ih gs).mpr ⟨ogs2, hogs2, hfm⟩
      | some b =>
          simp only [List.filterMap_cons, id_eq]
          constructor
          · intro h
            rw [mapM_cons_ok_iff] at h
            obtain ⟨g0, gs2, hg0, hrest, rfl⟩ := h
            obtain ⟨ogs2, hogs2, hfm⟩ := (ih gs2).mp hrest
            refine ⟨some g0 :: ogs2,
              mapM_cons_ok_iff.mpr ⟨some g0, ogs2, ?_, hogs2, rfl⟩, ?_⟩
            · simp [coB, hg0, Except.map]
            · simp [List.filterMap_cons, hfm]
          · rintro ⟨ogs, hogs, hfm⟩
            rw [mapM_cons_ok_iff] at hogs
            obtain ⟨og0, ogs2, hog0, hogs2, rfl⟩ := hogs
            simp only [coB] at hog0
            rw [exceptMap_ok_iff] at hog0
            obtain ⟨g0, hg0, rfl⟩ := hog0
            simp only [List.filterMap_cons, id_eq] at hfm
            subst hfm
            exact mapM_cons_ok_iff.mpr
              ⟨g0, _, hg0, (ih _).mpr ⟨ogs2, hogs2, rfl⟩, rfl⟩

theorem exceptBind_okL {α β : Type _} (a : α) (f : α → Except ExtractErr β) :
    ((Except.ok a : Except ExtractErr α) >>= f) = f a := rfl

theorem exceptBind_errL {α β : Type _} (e : ExtractErr) (f : α → Except ExtractErr β) :
    ((Except.error e : Except ExtractErr α) >>= f) = Except.error e := rfl

theorem processEntry_ok_iff (val : TagObject) (gs : List HavokGeometry) :
    processEntry val = .ok gs ↔
      ∃ bs, selectEntry val = .ok bs ∧ bs.mapM constructBody = .ok gs := by
  have hfun : processBody = fun b => selectBody b >>= coB := funext processBody_eq
  rw [processEntry_eq, selectEntry_eq]
  cases heb : entryBodies val with
  | error e => simp [exceptBind_errL]
  | ok bodies =>
      simp only [exceptBind_okL]
      constructor
      · intro h
        rw [exceptBind_ok_iff] at h
        obtain ⟨ogs, hogs, hpure⟩ := h
        rw [exceptPure_ok_iff] at hpure
        subst hpure
        rw [hfun, mapM_comp_iff] at hogs
        obtain ⟨obs, hobs, hcos⟩ := hogs
        refine ⟨obs.filterMap id,
          exceptBind_ok_iff.mpr ⟨obs, hobs, by rw [exceptPure_ok_iff]⟩,
          (mapM_coB_filterMap_iff obs (ogs.filterMap id)).mpr ⟨ogs, hcos, rfl⟩⟩
      · rintro ⟨bs, hbs, hcons⟩
        rw [exceptBind_ok_iff] at hbs
        obtain ⟨obs, hobs, hpure⟩ := hbs
        rw [exceptPure_ok_iff] at hpure
        subst hpure
        obtain ⟨ogs, hcos, hfm⟩ := (mapM_coB_filterMap_iff obs gs).mp hcons
        refine exceptBind_ok_iff.mpr ⟨ogs, ?_, by rw [exceptPure_ok_iff]; exact hfm⟩
        rw [hfun, mapM_comp_iff]
        exact ⟨obs, hobs, hcos⟩

/-- The shared parse prefix of extraction and selection: the
`resourceHandles` entries of the single named variant. -/
def rootEntries (root : TagObject) : Except ExtractErr (List TagObject) := do
  let nv ← rootVariants root
  match nv with
  | [v0] => (← (← v0.getKey "variant").getKey "resourceHandles").asSeq
  | _ => .error .assertionError

theorem read_geoms_object_eq (root : TagObject) :
    read_geoms_from_havok .Object root = rootEntries root >>= extractGeoms := by
  unfold read_geoms_from_havok rootEntries
  rw [if_neg (by simp), exceptBind_assoc]
  apply exceptBind_congr
  intro nv
  match nv with
  | [] => rfl
  | [v0] =>
      unfold extractFromVariant
      rw [exceptBind_assoc]
      apply exceptBind_congr
      intro a
      rw [exceptBind_assoc]
  | v0 :: v1 :: rest => rfl

theorem selectedBodies_eq (root : TagObject) :
    selectedBodies root = rootEntries root >>= fun vals =>
      vals.mapM selectEntry >>= fun bss => pure bss.flatten := by
  unfold selectedBodies rootEntries
  rw [exceptBind_assoc]
  apply exceptBind_congr
  intro nv
  match nv with
  | [] => rfl
  | [v0] =>
      rw [exceptBind_assoc]
      apply exceptBind_congr
      intro a
      rw [exceptBind_assoc]
  | v0 :: v1 :: rest => rfl

theorem extractGeoms_ok_iff_raw (vals : List TagObject) (gs : List HavokGeometry) :
    extractGeoms vals = .ok gs ↔
      ∃ gss, vals.mapM processEntry = .ok gss ∧ gs = gss.flatten := by
  unfold extractGeoms
  constructor
  · intro h
    rw [exceptBind_ok_iff] at h
    obtain ⟨gss, hgss, hpure⟩ := h
    rw [exceptPure_ok_iff] at hpure
    exact ⟨gss, hgss, hpure.symm⟩
  · rintro ⟨gss, hgss, rfl⟩
    exact exceptBind_ok_iff.mpr ⟨gss, hgss, by rw [exceptPure_ok_iff]⟩

theorem extractGeoms_ok_iff (vals : List TagObject) :
    ∀ gs : List HavokGeometry,
      extractGeoms vals = .ok gs ↔
        ∃ bss, vals.mapM selectEntry = .ok bss ∧
          bss.flatten.mapM constructBody = .ok gs := by
  induction vals with
  | nil =>
      intro gs
      rw [extractGeoms_ok_iff_raw]
      constructor
      · rintro ⟨gss, hgss, rfl⟩
        rw [mapM_nil_ok_iff] at hgss
        subst hgss
        exact ⟨[], mapM_nil_ok_iff.mpr rfl, mapM_nil_ok_iff.mpr rfl⟩
      · rintro ⟨bss, hbss, hcons⟩
        rw [mapM_nil_ok_iff] at hbss
        subst hbss
        rw [List.flatten_nil, mapM_nil_ok_iff] at hcons
        subst hcons
        exact ⟨[], mapM_nil_ok_iff.mpr rfl, rfl⟩
  | cons val rest ih =>
      intro gs
      rw [extractGeoms_ok_iff_raw]
      constructor
      · rintro ⟨gss, hgss, rfl⟩
        rw [mapM_cons_ok_iff] at hgss
        obtain ⟨gs0, gss2, hval, hrest, rfl⟩ := hgss
        obtain ⟨bs0, hbs0, hcons0⟩ := (processEntry_ok_iff val gs0).mp hval
        have hrest2 : extractGeoms rest = .ok gss2.flatten :=
          (extractGeoms_ok_iff_raw rest gss2.flatten).mpr ⟨gss2, hrest, rfl⟩
        obtain ⟨bssR, hbssR, hconsR⟩ := (ih gss2.flatten).mp hrest2
        refine ⟨bs0 :: bssR, mapM_cons_ok_iff.mpr ⟨bs0, bssR, hbs0, hbssR, rfl⟩, ?_⟩
        rw [List.flatten_cons]
        exact mapM_append_ok_iff.mpr ⟨gs0, gss2.flatten, hcons0, hconsR, by
          rw [List.flatten_cons]⟩
      · rintro ⟨bss, hbss, hcons⟩
        rw [mapM_cons_ok_iff] at hbss
        obtain ⟨bs0, bssR, hbs0, hbssR, rfl⟩ := hbss
        rw [List.flatten_cons, mapM_append_ok_iff] at hcons
        obtain ⟨gs0, gsR, hcons0, hconsR, rfl⟩ := hcons
        have hval : processEntry val = .ok gs0 :=
          (processEntry_ok_iff val gs0).mpr ⟨bs0, hbs0, hcons0⟩
        have hrest : extractGeoms rest = .ok gsR := (ih gsR).mpr ⟨bssR, hbssR, hconsR⟩
        obtain ⟨gss2, hgss2, rfl⟩ := (extractGeoms_ok_iff_raw rest gsR).mp hrest
        exact ⟨gs0 :: gss2, mapM_cons_ok_iff.mpr ⟨gs0, gss2, hval, hgss2, rfl⟩,
          (List.flatten_cons).symm⟩

/-- A resource entry whose name is not the collision literal. -/
def c8otherEntry : TagObject :=
  .map [("name", .str "Other Data"), ("variant", .map [])]

/-- A body with shape data. -/
def c8bodyWithShape : TagObject :=
  .map [("name", .str "hull"),
        ("shape", .map [("data", .map [("meshTree", .map okMeshTree)])])]

/-- A body without shape data (`shape` has no `data` key). -/
def c8bodyNoShape : TagObject :=
  .map [("name", .str "turret"), ("shape", .map [("type", .int 1)])]

/-- Two resource entries: one non-matching, one matching with one body with
shape data and one without. -/
def c8root : TagObject := mkRoot [c8otherEntry, mkEntry [c8bodyWithShape, c8bodyNoShape]]

/-- A root whose only resource entry does not match the collision name. -/
def c8rootNone : TagObject := mkRoot [c8otherEntry]

/-- C8: `read_geoms_from_havok` returns exactly one geometry per body lying
in a `bodyCinfos` sequence of a "Collision Physics Data" entry that has
shape data, named from the body's `name` and built from its
`shape.data.meshTree` (the iff against the spec-side selection); bodies
without shape data are skipped, and with zero matching entries the result is
the empty list, not an error. -/
theorem C8_extraction_filtering :
    (∀ (ft : TagFileType) (root : TagObject) (gs : List HavokGeometry),
        read_geoms_from_havok ft root = .ok gs ↔
          (ft = .Object ∧ ∃ bodies, selectedBodies root = .ok bodies ∧
            bodies.mapM constructBody = .ok gs))
    ∧ selectedBodies c8root = .ok [("hull", okMeshTree)]
    ∧ (read_geoms_from_havok .Object c8root).map (List.map HavokGeometry.name) =
        .ok ["hull"]
    ∧ read_geoms_from_havok .Object c8rootNone = .ok [] := by
  refine ⟨?_, ?_, ?_, ?_⟩
  · intro ft root gs
    cases ft with
    | Compendium =>
        constructor
        · intro h
          unfold read_geoms_from_havok at h
          rw [if_pos (by simp)] at h
          cases h
        · rintro ⟨h, _⟩
          cases h
    | Object =>
        rw [read_geoms_object_eq, selectedBodies_eq]
        cases hre : rootEntries root with
        | error e =>
            constructor
            · intro h
              rw [exceptBind_errL] at h
              cases h
            · rintro ⟨-, bodies, hb, -⟩
              rw [exceptBind_errL] at hb
              cases hb
        | ok vals =>
            rw [exceptBind_okL, extractGeoms_ok_iff]
            constructor
            · rintro ⟨bss, hbss, hcons⟩
              refine ⟨rfl, bss.flatten, ?_, hcons⟩
              rw [exceptBind_okL]
              exact exceptBind_ok_iff.mpr ⟨bss, hbss, by rw [exceptPure_ok_iff]⟩
            · rintro ⟨-, bodies, hb, hcons⟩
              rw [exceptBind_okL, exceptBind_ok_iff] at hb
              obtain ⟨bss, hbss, hpure⟩ := hb
              rw [exceptPure_ok_iff] at hpure
              subst hpure
              exact ⟨bss, hbss, hcons⟩
  · simp [selectedBodies, rootVariants, selectEntry, selectBody, isCollisionName,
      lookupKey, TagObject.getKey, TagObject.asSeq, TagObject.asMap, TagObject.asNat,
      TagObject.asStr, Bind.bind, Except.bind, pure, Except.pure, List.lookup,
      List.mapM, List.mapM.loop, c8root, mkRoot, mkEntry, c8otherEntry,
      c8bodyWithShape, c8bodyNoShape]
  · simp [read_geoms_from_havok, rootVariants, extractFromVariant, extractGeoms,
      processEntry, processBody, isCollisionName, HavokGeometry.ofTag, lookupKey,
      TagObject.getKey, TagObject.asSeq, TagObject.asMap, TagObject.asNat,
      TagObject.asRat, TagObject.asStr, readVec3, HavokSection.ofTag, readQuad,
      readNatArray, buildGeometry, applySection, setSlice, rewriteSection,
      rewriteFrom, resolveQuad, resolveIndex, unpack_shared_vertices,
      unpackSharedVertex, sharedFracX, sharedFracY, sharedFracZ,
      unpack_packed_vertices, unpackPackedVertex, clampVec, clampQ, vDefault,
      Bind.bind, Except.bind, pure, Except.pure, Except.map, List.lookup,
      List.mapM, List.mapM.loop, List.foldlM, c8root, mkRoot, mkEntry,
      c8otherEntry, c8bodyWithShape, c8bodyNoShape, okMeshTree, okSecTag]
  · simp [read_geoms_from_havok, rootVariants, extractFromVariant, extractGeoms,
      processEntry, isCollisionName, lookupKey, TagObject.getKey, TagObject.asSeq,
      TagObject.asMap, Bind.bind, Except.bind, pure, Except.pure, List.lookup,
      List.mapM, List.mapM.loop, c8rootNone, mkRoot, c8otherEntry]

/-- Disjointness of two sections' packed-vertex ranges. -/
def packedDisjoint (s1 s2 : HavokSection) : Prop :=
  s1.firstPackedVertexIndex + s1.numPackedVertices ≤ s2.firstPackedVertexIndex
  ∨ s2.firstPackedVertexIndex + s2.numPackedVertices ≤ s1.firstPackedVertexIndex

instance (s1 s2 : HavokSection) : Decidable (packedDisjoint s1 s2) := by
  unfold packedDisjoint; infer_instance

theorem setSlice_full (l xs : List Vec3) (first num : ℕ)
    (hb : first + num ≤ l.length) (hxs : xs.length = num) :
    setSlice l first num xs = .ok (l.take first ++ xs ++ l.drop (first + num)) := by
  unfold setSlice
  rw [if_pos (by omega), hxs]

theorem writeSlice_get (l xs : List Vec3) (first num : ℕ)
    (hb : first + num ≤ l.length) (hxs : xs.length = num) :
    (∀ k, k < num → (l.take first ++ xs ++ l.drop (first + num))[first + k]? = xs[k]?)
    ∧ (∀ i, i < first ∨ first + num ≤ i →
        (l.take first ++ xs ++ l.drop (first + num))[i]? = l[i]?) := by
  have hlt : (l.take first).length = first := by
    rw [List.length_take]; omega
  have hla : (l.take first ++ xs).length = first + num := by
    rw [List.length_append, hlt, hxs]
  constructor
  · intro k hk
    rw [List.getElem?_append, if_pos (by omega)]
    rw [List.getElem?_append, if_neg (by omega), hlt]
    congr 1
    omega
  · intro i hi
    cases hi with
    | inl hi =>
        rw [List.getElem?_append, if_pos (by omega)]
        rw [List.getElem?_append, if_pos (by omega)]
        rw [List.getElem?_take, if_pos hi]
    | inr hi =>
        rw [List.getElem?_append, if_neg (by rw [List.length_append]; omega)]
        rw [List.length_append, hlt, hxs, List.getElem?_drop]
        congr 1
        omega

theorem unpack_packed_length (packed : List ℕ) (codec : CodecParams)
    (dmin dmax : Vec3) :
    (unpack_packed_vertices packed codec dmin dmax).length = packed.length := by
  unfold unpack_packed_vertices
  rw [List.length_map]

theorem packedSlice_get (packedVs : List ℕ) (first num k : ℕ)
    (hb : first + num ≤ packedVs.length) (hk : k < num) :
    ((packedVs.drop first).take num)[k]? = some (packedVs.getD (first + k) 0) := by
  rw [List.getElem?_take, if_pos hk, List.getElem?_drop]
  rw [List.getD_eq_getElem?_getD, List.getElem?_eq_getElem (by omega)]
  rfl

theorem applySection_verts (packedVs svi : List ℕ) (verts : List Vec3)
    (prims : List Quad) (sec : HavokSection) (verts2 : List Vec3) (prims2 : List Quad)
    (h : applySection packedVs svi (verts, prims) sec = .ok (verts2, prims2))
    (hb : sec.firstPackedVertexIndex + sec.numPackedVertices ≤ packedVs.length)
    (hlen : packedVs.length ≤ verts.length) :
    verts2.length = verts.length
    ∧ (∀ k, k < sec.numPackedVertices →
        verts2[sec.firstPackedVertexIndex + k]? =
          some (unpackPackedVertex
            (packedVs.getD (sec.firstPackedVertexIndex + k) 0)
            sec.codec_params sec.domain_min sec.domain_max))
    ∧ (∀ i, (i < sec.firstPackedVertexIndex ∨
          sec.firstPackedVertexIndex + sec.numPackedVertices ≤ i) →
        verts2[i]? = verts[i]?) := by
  unfold applySection at h
  by_cases hn : 0 < sec.numPackedVertices
  · rw [if_pos hn] at h
    dsimp only at h
    set xs := unpack_packed_vertices
      ((packedVs.drop sec.firstPackedVertexIndex).take sec.numPackedVertices)
      sec.codec_params sec.domain_min sec.domain_max with hxsdef
    have hxslen : xs.length = sec.numPackedVertices := by
      rw [hxsdef, unpack_packed_length, List.length_take, List.length_drop]
      omega
    rw [setSlice_full verts xs sec.firstPackedVertexIndex sec.numPackedVertices
      (by omega) hxslen, exceptBind_okL, exceptBind_ok_iff] at h
    obtain ⟨prims3, hprims3, hp⟩ := h
    rw [exceptPure_ok_iff] at hp
    cases hp
    obtain ⟨hin, hout⟩ := writeSlice_get verts xs sec.firstPackedVertexIndex
      sec.numPackedVertices (by omega) hxslen
    refine ⟨?_, ?_, hout⟩
    · rw [List.length_append, List.length_append, List.length_take,
        List.length_drop, hxslen]
      omega
    · intro k hk
      rw [hin k hk, hxsdef]
      unfold unpack_packed_vertices
      rw [List.getElem?_map, packedSlice_get packedVs sec.firstPackedVertexIndex
        sec.numPackedVertices k hb hk]
      rfl
  · rw [if_neg hn] at h
    dsimp only at h
    rw [show (pure verts : Except ExtractErr (List Vec3)) = Except.ok verts from rfl,
      exceptBind_okL, exceptBind_ok_iff] at h
    obtain ⟨prims3, hprims3, hp⟩ := h
    rw [exceptPure_ok_iff] at hp
    cases hp
    exact ⟨rfl, fun k hk => absurd hk (by omega), fun i _ => rfl⟩

theorem foldSections_verts (packedVs svi : List ℕ) :
    ∀ (secs : List HavokSection) (verts : List Vec3) (prims : List Quad)
      (res : List Vec3 × List Quad),
      secs.foldlM (applySection packedVs svi) (verts, prims) = .ok res →
      (∀ sec ∈ secs,
        sec.firstPackedVertexIndex + sec.numPackedVertices ≤ packedVs.length) →
      packedVs.length ≤ verts.length →
      List.Pairwise packedDisjoint secs →
      res.1.length = verts.length
      ∧ (∀ sec ∈ secs, ∀ k, k < sec.numPackedVertices →
          res.1[sec.firstPackedVertexIndex + k]? =
            some (unpackPackedVertex
              (packedVs.getD (sec.firstPackedVertexIndex + k) 0)
              sec.codec_params sec.domain_min sec.domain_max))
      ∧ (∀ i, (∀ sec ∈ secs, i < sec.firstPackedVertexIndex ∨
            sec.firstPackedVertexIndex + sec.numPackedVertices ≤ i) →
          res.1[i]? = verts[i]?) := by
  intro secs
  induction secs with
  | nil =>
      intro verts prims res h _ _ _
      rw [List.foldlM_nil, exceptPure_ok_iff] at h
      subst h
      exact ⟨rfl, by simp, fun i _ => rfl⟩
  | cons sec rest ih =>
      intro verts prims res h hb hlen hpw
      rw [List.foldlM_cons, exceptBind_ok_iff] at h
      obtain ⟨⟨verts1, prims1⟩, h1, hrest⟩ := h
      have hbsec := hb sec (List.mem_cons_self sec rest)
      obtain ⟨hlen1, hin1, hout1⟩ :=
        applySection_verts packedVs svi verts prims sec verts1 prims1 h1 hbsec hlen
      have hbrest : ∀ s ∈ rest,
          s.firstPackedVertexIndex + s.numPackedVertices ≤ packedVs.length :=
        fun s hs => hb s (List.mem_cons_of_mem sec hs)
      have hpwrest : List.Pairwise packedDisjoint rest := (List.pairwise_cons.mp hpw).2
      have hdis : ∀ s ∈ rest, packedDisjoint sec s := (List.pairwise_cons.mp hpw).1
      obtain ⟨ihlen, ihin, ihout⟩ :=
        ih verts1 prims1 res hrest hbrest (by omega) hpwrest
      refine ⟨by omega, ?_, ?_⟩
      · intro s hs k hk
        rcases List.mem_cons.mp hs with rfl | hs2
        · have huntouched : ∀ r ∈ rest,
              s.firstPackedVertexIndex + k < r.firstPackedVertexIndex ∨
              r.firstPackedVertexIndex + r.numPackedVertices ≤
                s.firstPackedVertexIndex + k := by
            intro r hr
            cases hdis r hr with
            | inl hd => left; omega
            | inr hd => right; omega
          rw [ihout (s.firstPackedVertexIndex + k) huntouched]
          exact hin1 k hk
        · exact ihin s hs2 k hk
      · intro i hi
        rw [ihout i (fun s hs => hi s (List.mem_cons_of_mem sec hs))]
        exact hout1 i (hi sec (List.mem_cons_self sec rest))

theorem unpack_shared_length (shared : List ℕ) (dmin dmax : Vec3) :
    (unpack_shared_vertices shared dmin dmax).length = shared.length := by
  unfold unpack_shared_vertices
  rw [List.length_map]

theorem buildGeometry_fields (name : String) (dmin dmax : Vec3) (prims0 : List Quad)
    (svi : List ℕ) (sections : List HavokSection) (shared packedVs : List ℕ)
    (g : HavokGeometry)
    (h : buildGeometry name dmin dmax prims0 svi sections shared packedVs = .ok g) :
    g.name = name ∧ g.domain_min = dmin ∧ g.domain_max = dmax
    ∧ g.sharedVertices = shared ∧ g.sharedVerticesIndex = svi
    ∧ g.packedVertices = packedVs ∧ g.sections = sections := by
  unfold buildGeometry at h
  rw [exceptBind_ok_iff] at h
  obtain ⟨st, _, hg⟩ := h
  rw [exceptPure_ok_iff] at hg
  subst hg
  exact ⟨rfl, rfl, rfl, rfl, rfl, rfl, rfl⟩

theorem buildGeometry_verts (name : String) (dmin dmax : Vec3) (prims0 : List Quad)
    (svi : List ℕ) (sections : List HavokSection) (shared packedVs : List ℕ)
    (g : HavokGeometry)
    (h : buildGeometry name dmin dmax prims0 svi sections shared packedVs = .ok g)
    (hb : ∀ sec ∈ sections,
      sec.firstPackedVertexIndex + sec.numPackedVertices ≤ packedVs.length)
    (hpw : List.Pairwise packedDisjoint sections) :
    g.verts.length = packedVs.length + shared.length
    ∧ (∀ sec ∈ sections, ∀ k, k < sec.numPackedVertices →
        g.verts[sec.firstPackedVertexIndex + k]? =
          some (unpackPackedVertex
            (packedVs.getD (sec.firstPackedVertexIndex + k) 0)
            sec.codec_params sec.domain_min sec.domain_max))
    ∧ (∀ j, j < shared.length →
        g.verts[packedVs.length + j]? =
          some (unpackSharedVertex (shared.getD j 0) dmin dmax)) := by
  unfold buildGeometry at h
  rw [exceptBind_ok_iff] at h
  obtain ⟨st, hst, hg⟩ := h
  rw [exceptPure_ok_iff] at hg
  subst hg
  have hlen0 : (List.replicate packedVs.length vDefault ++
      unpack_shared_vertices shared dmin dmax).length =
      packedVs.length + shared.length := by
    rw [List.length_append, List.length_replicate, unpack_shared_length]
  obtain ⟨hL, hIn, hOut⟩ := foldSections_verts packedVs svi sections
    (List.replicate packedVs.length vDefault ++ unpack_shared_vertices shared dmin dmax)
    prims0 st hst hb (by omega) hpw
  refine ⟨by dsimp only; omega, ?_, ?_⟩
  · intro sec hsec k hk
    exact hIn sec hsec k hk
  · intro j hj
    have huntouched : ∀ sec ∈ sections,
        packedVs.length + j < sec.firstPackedVertexIndex ∨
        sec.firstPackedVertexIndex + sec.numPackedVertices ≤ packedVs.length + j := by
      intro sec hsec
      have := hb sec hsec
      right
      omega
    dsimp only
    rw [hOut (packedVs.length + j) huntouched]
    rw [List.getElem?_append, if_neg (by rw [List.length_replicate]; omega),
      List.length_replicate]
    have hj2 : packedVs.length + j - packedVs.length = j := by omega
    rw [hj2]
    unfold unpack_shared_vertices
    rw [List.getElem?_map, List.getD_eq_getElem?_getD,
      List.getElem?_eq_getElem hj]
    rfl

theorem ofTag_ok_elim (name : String) (tree : List (String × TagObject))
    (g : HavokGeometry) (h : HavokGeometry.ofTag name tree = .ok g) :
    ∃ prims0, buildGeometry g.name g.domain_min g.domain_max prims0
      g.sharedVerticesIndex g.sections g.sharedVertices g.packedVertices = .ok g := by
  unfold HavokGeometry.ofTag at h
  rw [exceptBind_ok_iff] at h; obtain ⟨dom, _, h⟩ := h
  rw [exceptBind_ok_iff] at h; obtain ⟨minNode, _, h⟩ := h
  rw [exceptBind_ok_iff] at h; obtain ⟨dmin, _, h⟩ := h
  rw [exceptBind_ok_iff] at h; obtain ⟨maxNode, _, h⟩ := h
  rw [exceptBind_ok_iff] at h; obtain ⟨dmax, _, h⟩ := h
  rw [exceptBind_ok_iff] at h; obtain ⟨primsNode, _, h⟩ := h
  rw [exceptBind_ok_iff] at h; obtain ⟨primNodes, _, h⟩ := h
  rw [exceptBind_ok_iff] at h; obtain ⟨prims0, _, h⟩ := h
  match prims0, h with
  | [], h => cases h
  | p :: ps, h =>
    rw [exceptBind_ok_iff] at h; obtain ⟨sviNode, _, h⟩ := h
    rw [exceptBind_ok_iff] at h; obtain ⟨svi, _, h⟩ := h
    rw [exceptBind_ok_iff] at h; obtain ⟨secsNode, _, h⟩ := h
    rw [exceptBind_ok_iff] at h; obtain ⟨secNodes, _, h⟩ := h
    rw [exceptBind_ok_iff] at h; obtain ⟨sections, _, h⟩ := h
    rw [exceptBind_ok_iff] at h; obtain ⟨sharedNode, _, h⟩ := h
    rw [exceptBind_ok_iff] at h; obtain ⟨shared, _, h⟩ := h
    rw [exceptBind_ok_iff] at h; obtain ⟨packedNode, _, h⟩ := h
    rw [exceptBind_ok_iff] at h; obtain ⟨packedVs, _, h⟩ := h
    obtain ⟨hname, hdmin, hdmax, hshared, hsvi, hpacked, hsections⟩ :=
      buildGeometry_fields name dmin dmax (p :: ps) svi sections shared packedVs g h
    refine ⟨p :: ps, ?_⟩
    rw [hname, hdmin, hdmax, hshared, hsvi, hpacked, hsections]
    exact h

/-- C9: for a geometry whose sections' packed ranges fit inside the packed
pool, are pairwise disjoint, and cover `[0, len(packedVertices))`, the
derived `verts` has length `len(packedVertices) + len(sharedVertices)`;
every packed index holds the packed value decoded with the owning section's
codec and domain, and every tail index `len(packedVertices) + j` holds
shared vertex `j` decoded with the geometry-wide domain. -/
theorem C9_verts_layout (name : String) (tree : List (String × TagObject))
    (g : HavokGeometry) (h : HavokGeometry.ofTag name tree = .ok g)
    (hb : ∀ sec ∈ g.sections,
      sec.firstPackedVertexIndex + sec.numPackedVertices ≤ g.packedVertices.length)
    (hpw : List.Pairwise packedDisjoint g.sections)
    (hcov : ∀ i, i < g.packedVertices.length → ∃ sec ∈ g.sections,
      sec.firstPackedVertexIndex ≤ i ∧
        i < sec.firstPackedVertexIndex + sec.numPackedVertices) :
    g.verts.length = g.packedVertices.length + g.sharedVertices.length
    ∧ (∀ i, i < g.packedVertices.length → ∃ sec ∈ g.sections,
        sec.firstPackedVertexIndex ≤ i ∧
        i < sec.firstPackedVertexIndex + sec.numPackedVertices ∧
        g.verts[i]? = some (unpackPackedVertex (g.packedVertices.getD i 0)
          sec.codec_params sec.domain_min sec.domain_max))
    ∧ (∀ j, j < g.sharedVertices.length →
        g.verts[g.packedVertices.length + j]? =
          some (unpackSharedVertex (g.sharedVertices.getD j 0)
            g.domain_min g.domain_max)) := by
  obtain ⟨prims0, hBG⟩ := ofTag_ok_elim name tree g h
  obtain ⟨hL, hIn, hTail⟩ := buildGeometry_verts g.name g.domain_min g.domain_max
    prims0 g.sharedVerticesIndex g.sections g.sharedVertices g.packedVertices g
    hBG hb hpw
  refine ⟨hL, ?_, hTail⟩
  intro i hi
  obtain ⟨sec, hsec, h1, h2⟩ := hcov i hi
  refine ⟨sec, hsec, h1, h2, ?_⟩
  have hk := hIn sec hsec (i - sec.firstPackedVertexIndex) (by omega)
  rw [show sec.firstPackedVertexIndex + (i - sec.firstPackedVertexIndex) = i from
    by omega] at hk
  exact hk

/-- Section node covering both packed vertices of the C9 example. -/
def c9secTag : List (String × TagObject) :=
  [("domain", .map [("min", .seq [.float 0, .float 0, .float 0]),
                    ("max", .seq [.float 1, .float 1, .float 1])]),
   ("codecParms", .seq [.float 0, .float 0, .float 0, .float 0, .float 0, .float 0]),
   ("firstPackedVertexIndex", .int 0),
   ("firstSharedVertexIndex", .int 0),
   ("firstPrimitiveIndex", .int 0),
   ("numPackedVertices", .int 2),
   ("numPrimitives", .int 1),
   ("firstDataRunIndex", .int 0),
   ("numDataRuns", .int 0)]

/-- Mesh tree with two packed vertices, one shared vertex and one section
whose packed range covers `[0, 2)` exactly. -/
def c9tree : List (String × TagObject) :=
  [("domain", .map [("min", .seq [.float 0, .float 0, .float 0]),
                    ("max", .seq [.float 1, .float 1, .float 1])]),
   ("primitives", .seq [.map [("indices", .seq [.int 0, .int 1, .int 2, .int 2])]]),
   ("sharedVerticesIndex", .seq [.int 0]),
   ("sections", .seq [.map c9secTag]),
   ("sharedVertices", .seq [.int 0]),
   ("packedVertices", .seq [.int 0, .int 0])]

/-- The section that `c9secTag` parses to. -/
def c9sec : HavokSection :=
  ⟨⟨0, 0, 0⟩, ⟨1, 1, 1⟩, ⟨⟨0, 0, 0⟩, ⟨0, 0, 0⟩⟩, 0, 0, 0, 2, 1, 0, 0⟩

/-- The geometry the C9 example constructs. -/
def c9geom : HavokGeometry :=
  { name := "c9", domain_min := ⟨0, 0, 0⟩, domain_max := ⟨1, 1, 1⟩,
    primitives := [⟨0, 1, 2, 2⟩], sharedVertices := [0], sharedVerticesIndex := [0],
    packedVertices := [0, 0], sections := [c9sec],
    verts := [⟨0, 0, 0⟩, ⟨0, 0, 0⟩, ⟨0, 0, 0⟩] }

/-- C9 witness: the concrete two-packed-vertex geometry satisfies the verts
layout guarantees. -/
theorem C9_verts_layout_witness :
    c9geom.verts.length = c9geom.packedVertices.length + c9geom.sharedVertices.length
    ∧ (∀ i, i < c9geom.packedVertices.length → ∃ sec ∈ c9geom.sections,
        sec.firstPackedVertexIndex ≤ i ∧
        i < sec.firstPackedVertexIndex + sec.numPackedVertices ∧
        c9geom.verts[i]? = some (unpackPackedVertex (c9geom.packedVertices.getD i 0)
          sec.codec_params sec.domain_min sec.domain_max))
    ∧ (∀ j, j < c9geom.sharedVertices.length →
        c9geom.verts[c9geom.packedVertices.length + j]? =
          some (unpackSharedVertex (c9geom.sharedVertices.getD j 0)
            c9geom.domain_min c9geom.domain_max)) :=
  C9_verts_layout "c9" c9tree c9geom
    (by simp [HavokGeometry.ofTag, lookupKey, TagObject.getKey, TagObject.asSeq,
      TagObject.asMap, TagObject.asNat, TagObject.asRat, readVec3, HavokSection.ofTag,
      readQuad, readNatArray, buildGeometry, applySection, setSlice, rewriteSection,
      rewriteFrom, resolveQuad, resolveIndex, unpack_shared_vertices,
      unpackSharedVertex, sharedFracX, sharedFracY, sharedFracZ,
      unpack_packed_vertices, unpackPackedVertex, clampVec, clampQ, vDefault,
      Bind.bind, Except.bind, pure, Except.pure, List.lookup, List.mapM,
      List.mapM.loop, List.foldlM, c9tree, c9secTag, c9sec, c9geom])
    (by decide)
    (by simp [c9geom, List.pairwise_singleton])
    (by decide)

end WoTHavok
